import Mathlib

/-!
Verification of the tool-use orchestration and command-safety engine of the
ai-teacher repository. The definitions below are shallow embeddings of the
TypeScript sources (`src/services/commandPolicy.ts`, `src/services/gemini.ts`,
the window-analysis cache module, and the `useChat` approval hook); the
theorems settle the frozen claims about them.
-/

namespace AITeacher

/-- JavaScript `String.prototype.toLowerCase` restricted to the character-wise
lowering both runtimes share (the commands and arguments involved are ASCII).
Defined directly on the character list so the kernel can evaluate it. -/
def toLowerCase (s : String) : String := ⟨s.data.map Char.toLower⟩

/-! ## Policy classifier (`src/services/commandPolicy.ts`) -/

/-- `CommandApprovalLevel` from `src/types/index.ts`. -/
inductive CommandApprovalLevel where
  | auto
  | approval_required
  | blocked
deriving DecidableEq, Repr

/-- The `category` field of `CommandPolicyDecision`. -/
inductive CommandCategory where
  | context
  | critical
  | forbidden
deriving DecidableEq, Repr

/-- `CommandRule` from `commandPolicy.ts`. -/
structure CommandRule where
  command : String
  argsPre : Option (List String) := none
  level : CommandApprovalLevel
  category : CommandCategory
  reason : String
  notes : Option String := none
deriving DecidableEq, Repr

/-- `CommandPolicyDecision` from `src/types/index.ts`. -/
structure CommandPolicyDecision where
  level : CommandApprovalLevel
  reason : String
  category : CommandCategory
  suggestedConfirmation : Option String := none
  notes : Option String := none
deriving DecidableEq, Repr

/-- `contextOnlyRules` from `commandPolicy.ts`, in source order. -/
def contextOnlyRules : List CommandRule := [
  { command := "docker", argsPre := some ["ps"], level := .auto, category := .context,
    reason := "Lists container status without changing state." },
  { command := "docker", argsPre := some ["ps", "-a"], level := .auto, category := .context,
    reason := "Displays all containers without modifying anything." },
  { command := "docker", argsPre := some ["logs"], level := .auto, category := .context,
    reason := "Returns container logs for debugging purposes only." },
  { command := "docker", argsPre := some ["stats"], level := .auto, category := .context,
    reason := "Shows resource usage without mutating containers." },
  { command := "docker", argsPre := some ["inspect"], level := .auto, category := .context,
    reason := "Reads container or image metadata without any side effects." },
  { command := "git", argsPre := some ["status"], level := .auto, category := .context,
    reason := "Shows repository state without modifying files." },
  { command := "git", argsPre := some ["branch"], level := .auto, category := .context,
    reason := "Lists branches without switching or editing." },
  { command := "git", argsPre := some ["log"], level := .auto, category := .context,
    reason := "Reads commit history only." },
  { command := "git", argsPre := some ["show"], level := .auto, category := .context,
    reason := "Displays commit details without altering the repo." },
  { command := "git", argsPre := some ["config", "--list"], level := .auto, category := .context,
    reason := "Displays configuration without making changes." },
  { command := "kubectl", argsPre := some ["get"], level := .auto, category := .context,
    reason := "Fetches cluster resource information." },
  { command := "kubectl", argsPre := some ["describe"], level := .auto, category := .context,
    reason := "Reads detailed resource information only." },
  { command := "npm", argsPre := some ["ls"], level := .auto, category := .context,
    reason := "Shows dependency tree without installation." },
  { command := "npm", argsPre := some ["run", "lint"], level := .approval_required,
    category := .critical,
    reason := "Runs project scripts that may be long running or mutate cache." },
  { command := "node", argsPre := some ["--version"], level := .auto, category := .context,
    reason := "Reports installed Node.js version." },
  { command := "python", argsPre := some ["--version"], level := .auto, category := .context,
    reason := "Reports installed Python version." },
  { command := "pwsh", argsPre := some ["-Command", "Get-Process"], level := .auto,
    category := .context, reason := "Lists running processes only." },
  { command := "powershell", argsPre := some ["-Command", "Get-Process"], level := .auto,
    category := .context, reason := "Lists running processes only." },
  { command := "cmd", argsPre := some ["/c", "tasklist"], level := .auto, category := .context,
    reason := "Shows task list without side effects." },
  { command := "wmic", argsPre := some ["process", "list", "brief"], level := .auto,
    category := .context, reason := "Displays process data for diagnostics." },
  { command := "systeminfo", level := .auto, category := .context,
    reason := "Displays system configuration information." },
  { command := "whoami", level := .auto, category := .context,
    reason := "Shows current user identity only." },
  { command := "hostname", level := .auto, category := .context,
    reason := "Displays machine hostname only." },
  { command := "ls", level := .auto, category := .context,
    reason := "Lists directory contents." },
  { command := "dir", level := .auto, category := .context,
    reason := "Lists directory contents." }]

/-- `criticalRules` from `commandPolicy.ts`, in source order. -/
def criticalRules : List CommandRule := [
  { command := "docker", argsPre := some ["start"], level := .approval_required,
    category := .critical, reason := "Starts containers and changes runtime state." },
  { command := "docker", argsPre := some ["stop"], level := .approval_required,
    category := .critical, reason := "Stops containers impacting running services." },
  { command := "docker", argsPre := some ["restart"], level := .approval_required,
    category := .critical, reason := "Restarts containers and can interrupt workloads." },
  { command := "docker", argsPre := some ["rm"], level := .blocked, category := .forbidden,
    reason := "Removes containers and risks data loss." },
  { command := "docker", argsPre := some ["compose", "down"], level := .blocked,
    category := .forbidden,
    reason := "docker compose down removes services and should never run automatically." },
  { command := "docker", argsPre := some ["compose", "up"], level := .approval_required,
    category := .critical, reason := "Creates or modifies containers and volumes." },
  { command := "docker", argsPre := some ["compose", "rm"], level := .blocked,
    category := .forbidden, reason := "Removes services and volumes." },
  { command := "git", argsPre := some ["reset"], level := .approval_required,
    category := .critical, reason := "Potentially discards commits or changes." },
  { command := "git", argsPre := some ["clean"], level := .approval_required,
    category := .critical, reason := "Deletes untracked files from the working tree." },
  { command := "git", argsPre := some ["checkout"], level := .approval_required,
    category := .critical, reason := "Switches branches or overwrites files." },
  { command := "git", argsPre := some ["pull"], level := .approval_required,
    category := .critical, reason := "Mutates local repository state." },
  { command := "npm", argsPre := some ["install"], level := .approval_required,
    category := .critical, reason := "Modifies node_modules and lockfiles." },
  { command := "npm", argsPre := some ["update"], level := .approval_required,
    category := .critical, reason := "Upgrades dependencies and may break builds." },
  { command := "npm", argsPre := some ["run"], level := .approval_required,
    category := .critical, reason := "Runs arbitrary project scripts." },
  { command := "pip", argsPre := some ["install"], level := .approval_required,
    category := .critical, reason := "Installs Python packages and alters environment." },
  { command := "apt", level := .approval_required, category := .critical,
    reason := "Installs or removes system packages." },
  { command := "brew", level := .approval_required, category := .critical,
    reason := "Installs or removes packages on macOS." },
  { command := "kubectl", level := .approval_required, category := .critical,
    reason := "Cluster operations can impact production workloads." },
  { command := "taskkill", level := .approval_required, category := .critical,
    reason := "Terminates running processes." }]

/-- `forbiddenCommands` from `commandPolicy.ts`, in source order. -/
def forbiddenCommands : List CommandRule := [
  { command := "rm", level := .blocked, category := .forbidden,
    reason := "Deleting files is never performed automatically." },
  { command := "rd", level := .blocked, category := .forbidden,
    reason := "Removing directories is not permitted." },
  { command := "del", level := .blocked, category := .forbidden,
    reason := "Deleting files is not permitted." },
  { command := "erase", level := .blocked, category := .forbidden,
    reason := "Deleting data is not permitted." },
  { command := "format", level := .blocked, category := .forbidden,
    reason := "Formatting drives is destructive and disallowed." },
  { command := "shutdown", level := .blocked, category := .forbidden,
    reason := "System power operations require manual execution by the user." },
  { command := "reboot", level := .blocked, category := .forbidden,
    reason := "System reboot requires explicit manual action." },
  { command := "poweroff", level := .blocked, category := .forbidden,
    reason := "Powering off the machine is never automated." },
  { command := "mkfs", level := .blocked, category := .forbidden,
    reason := "Creating filesystems is destructive." },
  { command := "diskpart", level := .blocked, category := .forbidden,
    reason := "Disk partition changes are disallowed." }]

/-- `allRules`: forbidden rules first, then critical, then context-only. -/
def allRules : List CommandRule :=
  forbiddenCommands ++ criticalRules ++ contextOnlyRules

/-- `matchesRule` from `commandPolicy.ts`: same command name, and the rule's
argument prefix (when present) equals the provided arguments positionally. -/
def matchesRule (rule : CommandRule) (command : String) (args : List String) : Bool :=
  if rule.command ≠ command then
    false
  else
    match rule.argsPre with
    | none => true
    | some pre =>
      if pre.length = 0 then true
      else if pre.length > args.length then false
      else decide (pre = args.take pre.length)

/-- `buildDecision` from `commandPolicy.ts`. -/
def buildDecision (rule : CommandRule) : CommandPolicyDecision :=
  { level := rule.level
    reason := rule.reason
    category := rule.category
    notes := rule.notes
    suggestedConfirmation :=
      if rule.level = .approval_required then
        some "Explain why this command is needed and wait for the user to approve before running it."
      else none }

/-- `defaultDecision` from `commandPolicy.ts`. -/
def defaultDecision (command : String) : CommandPolicyDecision :=
  { level := .approval_required
    category := .critical
    reason := "No explicit policy found for \x27" ++ command ++ "\x27. Defaulting to user approval."
    suggestedConfirmation :=
      some "Describe what this command will do and ask the user to approve it before execution." }

/-- `evaluateCommandPolicy` from `commandPolicy.ts`: lowercase the inputs, take
the first matching rule of the ordered table, fall back to the default. -/
def evaluateCommandPolicy (command : String) (args : List String) : CommandPolicyDecision :=
  let normalizedCommand := toLowerCase command
  let normalizedArgs := args.map toLowerCase
  match allRules.find? (fun rule => matchesRule rule normalizedCommand normalizedArgs) with
  | some matchedRule => buildDecision matchedRule
  | none => defaultDecision normalizedCommand

/-- `isContextOnlyCommand` from `commandPolicy.ts`. -/
def isContextOnlyCommand (command : String) (args : List String) : Bool :=
  (evaluateCommandPolicy command args).level = .auto

/-! ## The execute_command handler (`handleFunctionCall` in `gemini.ts`) -/

/-- `CommandResult` from `src/types/index.ts`. -/
structure CommandResult where
  success : Bool
  stdout : String
  stderr : String
  exit_code : Option Int
  error : Option String
deriving DecidableEq, Repr

/-- The response object of the `execute_command` branch of `handleFunctionCall`:
either the blocked failure, the needs-approval failure, or the serialized
result of the executed command. -/
inductive ExecuteCommandResponse where
  | blockedResponse (command : String) (args : List String)
      (policy : CommandPolicyDecision) (request_id : String)
  | needsApprovalResponse (command : String) (args : List String)
      (policy : CommandPolicyDecision) (request_id : String)
  | executedResponse (result : CommandResult) (command : String) (args : List String)
      (policy : CommandPolicyDecision)
deriving DecidableEq, Repr

/-- The `execute_command` branch of `handleFunctionCall` (`gemini.ts`): evaluate
the policy; blocked and approval_required short-circuit, only `auto` reaches the
host `executeCommand` capability. The second component records every host
invocation the branch performs. -/
def handleExecuteCommand (command : String) (args : List String) (requestId : String)
    (host : String → List String → CommandResult) :
    ExecuteCommandResponse × List (String × List String) :=
  let policyDecision := evaluateCommandPolicy command args
  if policyDecision.level = .blocked then
    (.blockedResponse command args policyDecision requestId, [])
  else if policyDecision.level = .approval_required then
    (.needsApprovalResponse command args policyDecision requestId, [])
  else
    (.executedResponse (host command args) command args policyDecision, [(command, args)])

/-! ## Approval state machine (`useChat` hook and the `gemini.ts` creation sites) -/

/-- The `status` field of `PendingCommandRequest`. -/
inductive RequestStatus where
  | pending
  | executing
  | executed
  | denied
  | blocked
deriving DecidableEq, Repr

/-- `PendingCommandRequest` from `src/types/index.ts`. -/
structure PendingCommandRequest where
  id : String
  command : String
  args : List String
  policy : CommandPolicyDecision
  createdAt : Nat
  status : RequestStatus
  result : Option CommandResult := none
  error : Option String := none
deriving DecidableEq, Repr

/-- The needs-approval creation site in `sendMessageWithVision` (`gemini.ts`):
requests for approval_required commands are created with status `pending`. -/
def mkNeedsApprovalRequest (requestId command : String) (args : List String)
    (policy : CommandPolicyDecision) (now : Nat) : PendingCommandRequest :=
  { id := requestId, command := command, args := args, policy := policy,
    createdAt := now, status := .pending }

/-- The blocked creation site in `sendMessageWithVision` (`gemini.ts`): requests
for blocked commands are created with status `blocked` and the policy reason as
error. -/
def mkBlockedRequest (requestId command : String) (args : List String)
    (policy : CommandPolicyDecision) (now : Nat) (error : Option String) :
    PendingCommandRequest :=
  { id := requestId, command := command, args := args, policy := policy,
    createdAt := now, status := .blocked, error := error }

/-- `handleCommandRequest` from the `useChat` hook: upsert by id. The object
spread `\x7b...existing, ...request\x7d` keeps from the existing entry only the
fields the incoming request does not carry; the incoming creation objects never
carry `result`. -/
def handleCommandRequest (pendingCommands : List PendingCommandRequest)
    (request : PendingCommandRequest) : List PendingCommandRequest :=
  if pendingCommands.any (fun item => item.id == request.id) then
    pendingCommands.map (fun item =>
      if item.id == request.id then { request with result := item.result } else item)
  else
    pendingCommands ++ [request]

/-- The states and host calls an `approveCommandRequest` invocation produces:
the state right after the guard marks the request `executing`, the host
commands actually run, and the state once the flow finishes (the request is
marked `executed` and then removed from the active set). -/
structure ApproveOutcome where
  afterGuard : List PendingCommandRequest
  hostCalls : List (String × List String)
  final : List PendingCommandRequest
deriving DecidableEq, Repr

/-- `approveCommandRequest` from the `useChat` hook. The guard returns early
only when the request is missing or its status is `executed` or `executing`;
otherwise the request is marked `executing`, `executeCommand` runs it (the
`Except` parameter is the host outcome: `.error` is the thrown-exception
branch), the request is marked `executed`, and finally removed. -/
def approveCommandRequest (pendingCommands : List PendingCommandRequest)
    (requestId : String) (execution : Except String CommandResult) : ApproveOutcome :=
  match pendingCommands.find? (fun item => item.id == requestId) with
  | none => ⟨pendingCommands, [], pendingCommands⟩
  | some request =>
    if request.status = .executed ∨ request.status = .executing then
      ⟨pendingCommands, [], pendingCommands⟩
    else
      let executingState := pendingCommands.map (fun item =>
        if item.id == requestId then { item with status := .executing, error := none }
        else item)
      match execution with
      | .ok result =>
        let executedState := executingState.map (fun item =>
          if item.id == requestId then
            { item with status := .executed, result := some result, error := result.error }
          else item)
        ⟨executingState, [(request.command, request.args)],
          executedState.filter (fun item => item.id != requestId)⟩
      | .error errorMessage =>
        let executedState := executingState.map (fun item =>
          if item.id == requestId then
            { item with status := .executed, error := some errorMessage }
          else item)
        ⟨executingState, [(request.command, request.args)],
          executedState.filter (fun item => item.id != requestId)⟩

/-- `denyCommandRequest` from the `useChat` hook: guard on missing, `executed`
or `denied`; otherwise mark `denied`, then remove from the active set. The
first component is the state after marking, the second the final state. -/
def denyCommandRequest (pendingCommands : List PendingCommandRequest)
    (requestId : String) : List PendingCommandRequest × List PendingCommandRequest :=
  match pendingCommands.find? (fun item => item.id == requestId) with
  | none => (pendingCommands, pendingCommands)
  | some request =>
    if request.status = .executed ∨ request.status = .denied then
      (pendingCommands, pendingCommands)
    else
      let deniedState := pendingCommands.map (fun item =>
        if item.id == requestId then { item with status := .denied, error := none }
        else item)
      (deniedState, deniedState.filter (fun item => item.id != requestId))

/-! ## Wrap-up detection and the turn entry of `sendMessageWithVision` -/

/-- JavaScript word character (`\w`): ASCII letter, digit or underscore. -/
def isWordChar (c : Char) : Bool :=
  c.isAlphanum || c = Char.ofNat 95

/-- The needle occurs in the haystack at position `i` with a regex word
boundary on each side (all phrases involved begin and end with a word
character, so `\b` there means: the neighbouring character, when it exists,
is not a word character). -/
def wordBoundedOccursAt (hay needle : List Char) (i : Nat) : Bool :=
  needle.isPrefixOf (hay.drop i) &&
  (i == 0 || !isWordChar (hay.getD (i - 1) (Char.ofNat 32))) &&
  (hay.length ≤ i + needle.length || !isWordChar (hay.getD (i + needle.length) (Char.ofNat 32)))

/-- `\b(p₁|p₂|...)\b.test(s)`: some alternative occurs somewhere in `s` with
word boundaries. -/
def testWordBounded (phrases : List String) (s : List Char) : Bool :=
  phrases.any (fun p =>
    (List.range (s.length + 1)).any (fun i => wordBoundedOccursAt s p.data i))

/-- JavaScript `String.prototype.trim`. -/
def trimChars (s : List Char) : List Char :=
  ((s.dropWhile Char.isWhitespace).reverse.dropWhile Char.isWhitespace).reverse

/-- The alternatives of the wrap-up regex in `isConversationWrapMessage`
(`gemini.ts`). -/
def wrapPhrases : List String :=
  ["all good", "that\x27s all", "that is all", "thanks", "thank you", "appreciate it",
   "no further", "no that\x27s it", "just checking", "just wanted to check", "all set",
   "we\x27re good", "done for now", "thanks, that", "thanks. that", "cheers"]

/-- `isConversationWrapMessage` from `gemini.ts`: empty messages are not
wrap-ups; otherwise trim, lowercase, and test the word-bounded alternation. -/
def isConversationWrapMessage (message : String) : Bool :=
  if message.data.isEmpty then false
  else
    let normalized := (trimChars message.data).map Char.toLower
    testWordBounded wrapPhrases normalized

/-- The conversation turns `sendMessageWithVision` receives (the fields its
turn-entry logic reads). -/
structure Message where
  role : String
  content : String
deriving DecidableEq, Repr

/-- The most recent user message's content (`messages.slice().reverse().find`,
defaulting to the empty string). -/
def lastUserMessageContent (messages : List Message) : String :=
  match messages.reverse.find? (fun m => m.role == "user") with
  | some m => m.content
  | none => ""

/-- How a `sendMessageWithVision` turn starts: either the wrap-up early return
(a stream holding exactly the fixed acknowledgement, built before any
screenshot analysis, system-context query, reasoning-service call or tool
handling), or the normal flow. -/
inductive TurnStart where
  | wrapAck (text : String)
  | continueTurn
deriving DecidableEq, Repr

/-- The fixed acknowledgement text enqueued by the wrap-up early return. -/
def wrapAckText : String :=
  "Yep, I still have it in view. Let me know if you need anything else!"

/-- The turn entry of `sendMessageWithVision` (`gemini.ts`): the wrap-up check
runs on the most recent user message before everything else in the turn. -/
def startTurn (messages : List Message) : TurnStart :=
  if isConversationWrapMessage (lastUserMessageContent messages) then
    .wrapAck wrapAckText
  else
    .continueTurn

/-- C10: a conversation whose most recent user message matches the wrap-up
pattern makes `sendMessageWithVision` return the fixed-acknowledgement stream
immediately; the `TurnStart.wrapAck` branch is taken, which performs no
reasoning-service call, no tool-call extraction and no host-capability
invocation. -/
theorem wrap_message_short_circuits (messages : List Message)
    (h : isConversationWrapMessage (lastUserMessageContent messages) = true) :
    startTurn messages = .wrapAck wrapAckText := by
  unfold startTurn
  rw [h]
  simp

/-- Witness for C10: a conversation ending in the user message "all good"
takes the wrap-up early return. -/
theorem wrap_message_short_circuits_witness :
    startTurn [⟨"user", "Is the stack fine?"⟩, ⟨"assistant", "Yes."⟩, ⟨"user", "all good"⟩] =
      .wrapAck wrapAckText :=
  wrap_message_short_circuits
    [⟨"user", "Is the stack fine?"⟩, ⟨"assistant", "Yes."⟩, ⟨"user", "all good"⟩]
    (by decide)

/-! ## Post-tool-result follow-up (`sendMessageWithVision`, after the
function-response round-trip) -/

/-- The synthetic follow-up prompt text of the completion-check retry. -/
def followUpPromptText : String :=
  "Please provide a response based on the command output above."

/-- The follow-up prompts sent after a tool-result round-trip (`gemini.ts`):
only for `execute_command`, only when the command is not awaiting approval nor
blocked, and only when the reply had no text or fewer than 50 characters;
a single `sendMessageStream` call with the fixed prompt is issued then. -/
def followUpPrompts (functionName : String) (needsApproval blocked : Bool)
    (hasResponseText : Bool) (responseTextLength : Nat) : List String :=
  if functionName == "execute_command" then
    let awaitingApproval := needsApproval || blocked
    if !awaitingApproval then
      if !hasResponseText || (hasResponseText && responseTextLength < 50) then
        [followUpPromptText]
      else
        []
    else
      []
  else
    []

/-- C7: after a tool-result round-trip, silence or a suspiciously short reply
triggers exactly one synthetic follow-up prompt; an awaiting-approval or
blocked command triggers none, and never is more than one follow-up sent. -/
theorem one_follow_up_on_silence (functionName : String)
    (needsApproval blocked hasResponseText : Bool) (responseTextLength : Nat) :
    (followUpPrompts functionName needsApproval blocked hasResponseText
        responseTextLength).length ≤ 1 ∧
    (functionName = "execute_command" → needsApproval = false → blocked = false →
      (hasResponseText = false ∨ responseTextLength < 50) →
      followUpPrompts functionName needsApproval blocked hasResponseText
        responseTextLength = [followUpPromptText]) ∧
    (needsApproval = true ∨ blocked = true →
      followUpPrompts functionName needsApproval blocked hasResponseText
        responseTextLength = []) := by
  refine ⟨?_, ?_, ?_⟩
  · by_cases hlen : responseTextLength < 50 <;>
      cases needsApproval <;> cases blocked <;> cases hasResponseText <;>
        simp [followUpPrompts, hlen] <;> split <;> simp
  · intro hname hna hb hshort
    subst hname hna hb
    rcases hshort with h | h
    · subst h
      simp [followUpPrompts]
    · cases hasResponseText <;> simp [followUpPrompts, h]
  · intro hawait
    rcases hawait with h | h <;> subst h <;>
      simp [followUpPrompts]

/-- Witness for C7: an `execute_command` result answered by an empty reply gets
exactly the one follow-up prompt. -/
theorem one_follow_up_on_silence_witness :
    followUpPrompts "execute_command" false false false 0 = [followUpPromptText] :=
  (one_follow_up_on_silence "execute_command" false false false 0).2.1 rfl rfl rfl
    (Or.inl rfl)

/-! ## Capture-analysis cache (the window-analysis module) -/

/-- `CacheEntry` of the window-analysis module, the analysis value abstracted. -/
structure CacheEntry (α : Type) where
  analysis : α
  timestamp : Nat
deriving DecidableEq, Repr

/-- A JavaScript `Map` from cache key to entry, in insertion order. -/
abbrev AnalysisCache (α : Type) := List (String × CacheEntry α)

/-- `CACHE_TTL = 5 * 60 * 1000` milliseconds. -/
def CACHE_TTL : Nat := 5 * 60 * 1000

/-- `MAX_CACHE_SIZE = 50`. -/
def MAX_CACHE_SIZE : Nat := 50

/-- `Map.prototype.get`. -/
def mapGet {α : Type} (cache : AnalysisCache α) (key : String) : Option (CacheEntry α) :=
  match cache.find? (fun kv => kv.1 == key) with
  | some kv => some kv.2
  | none => none

/-- `Map.prototype.delete`. -/
def mapDelete {α : Type} (cache : AnalysisCache α) (key : String) : AnalysisCache α :=
  cache.filter (fun kv => kv.1 != key)

/-- `Map.prototype.set`: update in place, or append a new entry. -/
def mapSet {α : Type} (cache : AnalysisCache α) (key : String) (entry : CacheEntry α) :
    AnalysisCache α :=
  if cache.any (fun kv => kv.1 == key) then
    cache.map (fun kv => if kv.1 == key then (key, entry) else kv)
  else
    cache ++ [(key, entry)]

/-- `getCacheKey` of the window-analysis module: title, process name and the
first 16 characters of the image hash, pipe-separated. -/
def getCacheKey (windowTitle processName imageHash : String) : String :=
  windowTitle ++ "|" ++ processName ++ "|" ++ ⟨imageHash.data.take 16⟩

/-- `cleanExpiredEntries`: delete every entry strictly older than the TTL. -/
def cleanExpiredEntries {α : Type} (now : Nat) (cache : AnalysisCache α) : AnalysisCache α :=
  cache.filter (fun kv => !(now - kv.2.timestamp > CACHE_TTL))

/-- The loop body of `evictIfNeeded`: strict comparison against the running
oldest timestamp, which starts at `Date.now()`. -/
def oldestStep (acc : Option String × Nat) (kv : String × CacheEntry α) :
    Option String × Nat :=
  if kv.2.timestamp < acc.2 then (some kv.1, kv.2.timestamp) else acc

/-- The oldest-entry search of `evictIfNeeded`: `oldestTime` starts at
`Date.now()`, so an entry qualifies only when strictly older than now. -/
def findOldestKey {α : Type} (now : Nat) (cache : AnalysisCache α) : Option String :=
  (cache.foldl oldestStep (none, now)).1

/-- `evictIfNeeded`: at `MAX_CACHE_SIZE` or more entries, delete the found
oldest key, when the search produced one. -/
def evictIfNeeded {α : Type} (now : Nat) (cache : AnalysisCache α) : AnalysisCache α :=
  if MAX_CACHE_SIZE ≤ cache.length then
    match findOldestKey now cache with
    | some oldestKey => mapDelete cache oldestKey
    | none => cache
  else cache

/-- What one `analyzeWindowCapture` call leaves behind: the value returned, the
cache afterwards, and whether the expensive analysis ran (cache miss). -/
structure AnalyzeOutcome (α : Type) where
  result : α
  cache : AnalysisCache α
  performedAnalysis : Bool
deriving DecidableEq, Repr

/-- The miss path of `analyzeWindowCapture`: evict if needed, run the
analysis, store it with the current timestamp. -/
def cacheMissInsert {α : Type} (cleaned : AnalysisCache α) (key : String) (now : Nat)
    (fresh : α) : AnalyzeOutcome α :=
  ⟨fresh, mapSet (evictIfNeeded now cleaned) key ⟨fresh, now⟩, true⟩

/-- The cache discipline of `analyzeWindowCapture`: clean expired entries, then
a hit only when the entry exists and is strictly younger than the TTL;
otherwise the miss path. `fresh` stands for the result `performAnalysis` would
produce. -/
def analyzeWindowCapture {α : Type} (cache : AnalysisCache α) (key : String) (now : Nat)
    (fresh : α) : AnalyzeOutcome α :=
  match mapGet (cleanExpiredEntries now cache) key with
  | some cached =>
    if now - cached.timestamp < CACHE_TTL then
      ⟨cached.analysis, cleanExpiredEntries now cache, false⟩
    else
      cacheMissInsert (cleanExpiredEntries now cache) key now fresh
  | none => cacheMissInsert (cleanExpiredEntries now cache) key now fresh

/-- Fifty distinct keys, all inserted at the same clock tick. -/
def fullFreshCache (now : Nat) : AnalysisCache Unit :=
  (List.range 50).map (fun i => (⟨List.replicate i (Char.ofNat 97)⟩, ⟨(), now⟩))

set_option maxRecDepth 8000 in
/-- Counterexample to C8 as stated: with fifty entries all inserted at the
current tick, inserting a fifty-first key evicts nothing (the strict
`timestamp < Date.now()` search finds no entry) and the cache reaches 51
entries, exceeding the claimed maximum of 50. -/
theorem cache_exceeds_capacity_on_equal_timestamps :
    (fullFreshCache 1000000).length = 50 ∧
    ((analyzeWindowCapture (fullFreshCache 1000000) "fresh-key" 1000000 ()).cache).length
      = 51 := by
  decide

/-- What the `evictIfNeeded` loop's fold computes: either no entry beats the
starting time and the accumulator is unchanged, or the result names a member
with the minimal timestamp, strictly below the starting time. -/
lemma oldestStep_foldl_spec {α : Type} (l : AnalysisCache α) (acc : Option String × Nat) :
    (l.foldl oldestStep acc = acc ∧ ∀ kv ∈ l, acc.2 ≤ kv.2.timestamp) ∨
    (∃ kv ∈ l, l.foldl oldestStep acc = (some kv.1, kv.2.timestamp) ∧
      kv.2.timestamp < acc.2 ∧ ∀ kv' ∈ l, kv.2.timestamp ≤ kv'.2.timestamp) := by
  induction l generalizing acc with
  | nil =>
    left
    exact ⟨rfl, by simp⟩
  | cons kv l ih =>
    by_cases h : kv.2.timestamp < acc.2
    · have hstep : oldestStep acc kv = (some kv.1, kv.2.timestamp) := by
        unfold oldestStep
        rw [if_pos h]
      rcases ih (some kv.1, kv.2.timestamp) with ⟨heq, hall⟩ | ⟨kv', hmem, heq, hlt, hall⟩
      · right
        refine ⟨kv, List.mem_cons_self kv l, ?_, h, ?_⟩
        · rw [List.foldl_cons, hstep, heq]
        · intro kv' hkv'
          rcases List.mem_cons.mp hkv' with rfl | hmem
          · exact le_refl _
          · exact hall kv' hmem
      · right
        refine ⟨kv', List.mem_cons_of_mem _ hmem, ?_, lt_trans hlt h, ?_⟩
        · rw [List.foldl_cons, hstep, heq]
        · intro kv'' hkv''
          rcases List.mem_cons.mp hkv'' with rfl | hmem'
          · exact le_of_lt hlt
          · exact hall kv'' hmem'
    · have hstep : oldestStep acc kv = acc := by
        unfold oldestStep
        rw [if_neg h]
      rcases ih acc with ⟨heq, hall⟩ | ⟨kv', hmem, heq, hlt, hall⟩
      · left
        refine ⟨?_, ?_⟩
        · rw [List.foldl_cons, hstep, heq]
        · intro kv' hkv'
          rcases List.mem_cons.mp hkv' with rfl | hmem
          · exact le_of_not_lt h
          · exact hall kv' hmem
      · right
        refine ⟨kv', List.mem_cons_of_mem _ hmem, ?_, hlt, ?_⟩
        · rw [List.foldl_cons, hstep, heq]
        · intro kv'' hkv''
          rcases List.mem_cons.mp hkv'' with rfl | hmem'
          · exact le_trans (le_of_lt hlt) (le_of_not_lt h)
          · exact hall kv'' hmem'

/-- When some entry is strictly older than now, the oldest-key search succeeds
and names a member with minimal timestamp. -/
lemma findOldestKey_mem {α : Type} (now : Nat) (cache : AnalysisCache α)
    (kv : String × CacheEntry α) (hmem : kv ∈ cache) (hnow : kv.2.timestamp < now) :
    ∃ kv' ∈ cache, findOldestKey now cache = some kv'.1 ∧
      ∀ kv'' ∈ cache, kv'.2.timestamp ≤ kv''.2.timestamp := by
  unfold findOldestKey
  rcases oldestStep_foldl_spec cache (none, now) with ⟨heq, hall⟩ | ⟨kv', hm, heq, hlt, hall⟩
  · exact absurd (hall kv hmem) (not_le_of_lt hnow)
  · exact ⟨kv', hm, by rw [heq], hall⟩

/-- When one entry's timestamp is the unique minimum and lies strictly before
now, the oldest-key search returns exactly that entry's key. -/
lemma findOldestKey_eq_of_unique {α : Type} (now : Nat) (cache : AnalysisCache α)
    (kv₀ : String × CacheEntry α) (hmem : kv₀ ∈ cache) (hnow : kv₀.2.timestamp < now)
    (huniq : ∀ kv ∈ cache, kv ≠ kv₀ → kv₀.2.timestamp < kv.2.timestamp) :
    findOldestKey now cache = some kv₀.1 := by
  unfold findOldestKey
  rcases oldestStep_foldl_spec cache (none, now) with ⟨heq, hall⟩ | ⟨kv, hm, heq, hlt, hall⟩
  · exact absurd (hall kv₀ hmem) (not_le_of_lt hnow)
  · rw [heq]
    by_cases hk : kv = kv₀
    · rw [hk]
    · exact absurd (huniq kv hm hk) (not_lt_of_le (hall kv₀ hmem))

/-- Deleting one present key from a key-nodup cache removes exactly one entry. -/
lemma mapDelete_length_of_nodup {α : Type} (cache : AnalysisCache α) (key : String)
    (hwf : (cache.map Prod.fst).Nodup) (hmem : ∃ kv ∈ cache, kv.1 = key) :
    (mapDelete cache key).length = cache.length - 1 := by
  induction cache with
  | nil => simp at hmem
  | cons kv l ih =>
    rw [List.map_cons, List.nodup_cons] at hwf
    unfold mapDelete
    rw [List.filter_cons]
    by_cases hk : kv.1 = key
    · have hcond : (kv.1 != key) = false := by simp [hk]
      have hl : l.filter (fun kv => kv.1 != key) = l := by
        apply List.filter_eq_self.mpr
        intro a ha
        have hne : a.1 ≠ key := by
          intro hc
          apply hwf.1
          rw [hk, ← hc]
          exact List.mem_map_of_mem Prod.fst ha
        simp [hne]
      simp [hcond, hl]
    · have hcond : (kv.1 != key) = true := by simp [hk]
      rw [if_pos hcond]
      rcases hmem with ⟨kv', hkv', hkey⟩
      rcases List.mem_cons.mp hkv' with rfl | hmem'
      · exact absurd hkey hk
      · have hlen := ih hwf.2 ⟨kv', hmem', hkey⟩
        have hpos : 0 < l.length := List.length_pos.mpr (List.ne_nil_of_mem hmem')
        unfold mapDelete at hlen
        simp only [List.length_cons]
        omega

/-- `mapSet` grows the cache by at most one entry. -/
lemma mapSet_length_le {α : Type} (cache : AnalysisCache α) (key : String)
    (entry : CacheEntry α) : (mapSet cache key entry).length ≤ cache.length + 1 := by
  unfold mapSet
  split
  · rw [List.length_map]
    omega
  · rw [List.length_append]
    simp

/-- C8 (amended): the lookup is lazily expiring — a hit only ever returns an
entry strictly younger than the TTL, and a surviving entry at or past the TTL
is treated as a miss; the cache never exceeds 50 entries provided, at
capacity, some entry is strictly older than the current tick; and at capacity
the entry with the unique oldest timestamp, when strictly older than the
current tick, is exactly the one evicted. -/
theorem analysisCache_eviction_and_ttl {α : Type}
    (cache : AnalysisCache α) (key : String) (now : Nat) (fresh : α)
    (hwf : (cache.map Prod.fst).Nodup)
    (hsize : cache.length ≤ MAX_CACHE_SIZE)
    (hold : MAX_CACHE_SIZE ≤ (cleanExpiredEntries now cache).length →
      ∃ kv ∈ cleanExpiredEntries now cache, kv.2.timestamp < now) :
    ((analyzeWindowCapture cache key now fresh).performedAnalysis = false →
      ∃ e, mapGet (cleanExpiredEntries now cache) key = some e ∧
        now - e.timestamp < CACHE_TTL ∧
        (analyzeWindowCapture cache key now fresh).result = e.analysis) ∧
    (∀ e, mapGet (cleanExpiredEntries now cache) key = some e →
      CACHE_TTL ≤ now - e.timestamp →
      (analyzeWindowCapture cache key now fresh).performedAnalysis = true) ∧
    (analyzeWindowCapture cache key now fresh).cache.length ≤ MAX_CACHE_SIZE ∧
    (∀ kv₀ ∈ cleanExpiredEntries now cache,
      MAX_CACHE_SIZE ≤ (cleanExpiredEntries now cache).length →
      kv₀.2.timestamp < now →
      (∀ kv ∈ cleanExpiredEntries now cache, kv ≠ kv₀ →
        kv₀.2.timestamp < kv.2.timestamp) →
      evictIfNeeded now (cleanExpiredEntries now cache) =
        mapDelete (cleanExpiredEntries now cache) kv₀.1 ∧
      (evictIfNeeded now (cleanExpiredEntries now cache)).length =
        (cleanExpiredEntries now cache).length - 1) := by
  have hclean_le : (cleanExpiredEntries now cache).length ≤ cache.length :=
    List.length_filter_le _ _
  have hclean_wf : ((cleanExpiredEntries now cache).map Prod.fst).Nodup :=
    hwf.sublist ((List.filter_sublist _).map Prod.fst)
  have hM : MAX_CACHE_SIZE = 50 := rfl
  refine ⟨?_, ?_, ?_, ?_⟩
  · intro hmiss
    unfold analyzeWindowCapture at hmiss ⊢
    cases hget : mapGet (cleanExpiredEntries now cache) key with
    | none =>
      rw [hget] at hmiss
      simp [cacheMissInsert] at hmiss
    | some cached =>
      rw [hget] at hmiss
      dsimp only at hmiss ⊢
      by_cases hage : now - cached.timestamp < CACHE_TTL
      · rw [if_pos hage]
        exact ⟨cached, rfl, hage, rfl⟩
      · rw [if_neg hage] at hmiss
        simp [cacheMissInsert] at hmiss
  · intro e hget hage
    unfold analyzeWindowCapture
    rw [hget]
    dsimp only
    rw [if_neg (not_lt_of_le hage)]
    rfl
  · unfold analyzeWindowCapture
    have hmiss_len : (cacheMissInsert (cleanExpiredEntries now cache) key now fresh).cache.length
        ≤ MAX_CACHE_SIZE := by
      unfold cacheMissInsert
      dsimp only
      by_cases hcap : MAX_CACHE_SIZE ≤ (cleanExpiredEntries now cache).length
      · rcases hold hcap with ⟨kv, hkv, hts⟩
        rcases findOldestKey_mem now (cleanExpiredEntries now cache) kv hkv hts
          with ⟨kv', hkv', hfind, _⟩
        have hevict : evictIfNeeded now (cleanExpiredEntries now cache) =
            mapDelete (cleanExpiredEntries now cache) kv'.1 := by
          unfold evictIfNeeded
          rw [if_pos hcap, hfind]
        have hdel : (mapDelete (cleanExpiredEntries now cache) kv'.1).length =
            (cleanExpiredEntries now cache).length - 1 :=
          mapDelete_length_of_nodup _ _ hclean_wf ⟨kv', hkv', rfl⟩
        have := mapSet_length_le (evictIfNeeded now (cleanExpiredEntries now cache)) key
          (⟨fresh, now⟩ : CacheEntry α)
        rw [hevict] at this ⊢
        rw [hdel] at this
        omega
      · have hevict : evictIfNeeded now (cleanExpiredEntries now cache) =
            cleanExpiredEntries now cache := by
          unfold evictIfNeeded
          rw [if_neg hcap]
        have := mapSet_length_le (evictIfNeeded now (cleanExpiredEntries now cache)) key
          (⟨fresh, now⟩ : CacheEntry α)
        rw [hevict] at this ⊢
        omega
    cases hget : mapGet (cleanExpiredEntries now cache) key with
    | none => exact hmiss_len
    | some cached =>
      dsimp only
      by_cases hage : now - cached.timestamp < CACHE_TTL
      · rw [if_pos hage]
        exact le_trans hclean_le hsize
      · rw [if_neg hage]
        exact hmiss_len
  · intro kv₀ hmem hcap hnow huniq
    have hfind := findOldestKey_eq_of_unique now (cleanExpiredEntries now cache) kv₀ hmem
      hnow huniq
    have hevict : evictIfNeeded now (cleanExpiredEntries now cache) =
        mapDelete (cleanExpiredEntries now cache) kv₀.1 := by
      unfold evictIfNeeded
      rw [if_pos hcap, hfind]
    refine ⟨hevict, ?_⟩
    rw [hevict]
    exact mapDelete_length_of_nodup _ _ hclean_wf ⟨kv₀, hmem, rfl⟩

/-- A three-entry cache with distinct keys and a unique oldest entry. -/
def smallCache : AnalysisCache Unit :=
  [("w1|cursor|h1", ⟨(), 10⟩), ("w2|cursor|h2", ⟨(), 30⟩), ("w3|chrome|h3", ⟨(), 20⟩)]

/-- Witness for C8 (amended) at a concrete cache: the capacity bound holds
after an insertion. -/
theorem analysisCache_eviction_and_ttl_witness :
    (analyzeWindowCapture smallCache "w4|chrome|h4" 100 ()).cache.length ≤ MAX_CACHE_SIZE :=
  (analysisCache_eviction_and_ttl smallCache "w4|chrome|h4" 100 () (by decide) (by decide)
    (by decide)).2.2.1

/-! ## Window-selection resolution (`gemini.ts`) -/

/-- Substring containment, JavaScript `String.prototype.includes`. -/
def containsSubstr (hay needle : List Char) : Bool :=
  (List.range (hay.length + 1)).any (fun i => needle.isPrefixOf (hay.drop i))

/-- The decimal value of a digit run (`parseInt` on the captured digits). -/
def parseDigits (ds : List Char) : Nat :=
  ds.foldl (fun acc c => acc * 10 + (c.toNat - 48)) 0

/-- The first match of `\b(\d+)\b`: the leftmost position where a maximal
digit run starts at a word boundary and ends at one, and its value. -/
def firstBoundedNumber (s : List Char) : Option Nat :=
  match (List.range s.length).find? (fun i =>
      (s.getD i (Char.ofNat 32)).isDigit &&
      (i == 0 || !isWordChar (s.getD (i - 1) (Char.ofNat 32))) &&
      (let run := (s.drop i).takeWhile Char.isDigit
       s.length ≤ i + run.length || !isWordChar (s.getD (i + run.length) (Char.ofNat 32)))) with
  | some i => some (parseDigits ((s.drop i).takeWhile Char.isDigit))
  | none => none

/-- `ORDINAL_WORDS` from `gemini.ts`, in object-literal (iteration) order. -/
def ORDINAL_WORDS : List (String × Nat) :=
  [("first", 1), ("second", 2), ("third", 3), ("fourth", 4), ("fifth", 5),
   ("sixth", 6), ("seventh", 7), ("eighth", 8), ("ninth", 9), ("tenth", 10)]

/-- The ordinal-word loop of `extractRequestedIndex`: the first entry (in
iteration order, i.e. smallest value) contained in the lowercased input and in
range wins. -/
def ordinalIndex (input : String) (total : Nat) : Option Nat :=
  match ORDINAL_WORDS.find? (fun wv =>
      containsSubstr (toLowerCase input).data wv.1.data && (1 ≤ wv.2 && wv.2 ≤ total)) with
  | some wv => some (wv.2 - 1)
  | none => none

/-- `extractRequestedIndex` from `gemini.ts`: the first word-bounded digit run,
when its value is in 1..total, wins; otherwise the ordinal-word loop runs. -/
def extractRequestedIndex (input : String) (total : Nat) : Option Nat :=
  let digitPart :=
    match firstBoundedNumber input.data with
    | some candidate =>
      if 1 ≤ candidate && candidate ≤ total then some (candidate - 1) else none
    | none => none
  match digitPart with
  | some i => some i
  | none => ordinalIndex input total

/-- Removal of `["'`]` characters (the quote-stripping replace). -/
def stripQuoteChars (s : List Char) : List Char :=
  s.filter (fun c => !(c == Char.ofNat 34 || c == Char.ofNat 39 || c == Char.ofNat 96))

/-- The stop words of `normalizeWindowText`, in alternation order. -/
def stopWords : List String :=
  ["window", "app", "tab", "project", "file", "view", "editor", "panel", "screen",
   "pane", "the", "this", "that", "one", "please", "focus", "select", "choose",
   "open", "show", "display", "look", "at", "into", "on"]

/-- The stop word (its length) matching at the head of `s` with a word boundary
after it, alternatives tried in order. -/
def matchStopAt (s : List Char) : Option Nat :=
  match stopWords.find? (fun w =>
      w.data.isPrefixOf s &&
      (s.length ≤ w.data.length || !isWordChar (s.getD w.data.length (Char.ofNat 32)))) with
  | some w => some w.data.length
  | none => none

/-- The global word-bounded stop-word replacement: scan left to right, and at
each boundary position replace the first matching alternative by one space,
continuing after it. `prev` is the character before the current position
(word boundaries need its wordness); the fuel is the remaining length. -/
def replaceStopGo : Nat → Option Char → List Char → List Char
  | 0, _, s => s
  | _ + 1, _, [] => []
  | fuel + 1, prev, c :: rest =>
    let boundary := match prev with
      | none => true
      | some p => !isWordChar p
    if boundary then
      match matchStopAt (c :: rest) with
      | some len =>
        Char.ofNat 32 ::
          replaceStopGo fuel (some (((c :: rest).take len).getLastD c)) ((c :: rest).drop len)
      | none => c :: replaceStopGo fuel (some c) rest
    else
      c :: replaceStopGo fuel (some c) rest

/-- The whitespace-collapsing replace (`\s+` to one space). -/
def collapseWs : Nat → List Char → List Char
  | 0, s => s
  | _ + 1, [] => []
  | fuel + 1, c :: rest =>
    if c.isWhitespace then
      Char.ofNat 32 :: collapseWs fuel (rest.dropWhile Char.isWhitespace)
    else
      c :: collapseWs fuel rest

/-- `normalizeWindowText` from `gemini.ts`: lowercase, strip quote characters,
blank out word-bounded stop words, collapse whitespace, trim. -/
def normalizeWindowText (text : String) : String :=
  let lowered := (toLowerCase text).data
  let unquoted := stripQuoteChars lowered
  let stopped := replaceStopGo (unquoted.length + 1) none unquoted
  let collapsed := collapseWs stopped.length stopped
  ⟨trimChars collapsed⟩

/-- `WindowSelectionOption` from `gemini.ts`. -/
structure WindowSelectionOption where
  title : String
  displayName : String
  processName : String
  isActive : Bool
deriving DecidableEq, Repr

/-- The record `resolveWindowSelectionFromOptions` returns. -/
structure ResolvedWindow where
  title : String
  displayName : String
  processName : String
deriving DecidableEq, Repr

/-- `requested.replace(/["'`]/g, "").trim()`. -/
def cleanRequested (requested : String) : List Char :=
  trimChars (stripQuoteChars requested.data)

/-- JavaScript `String.prototype.split(" ")`. -/
def splitOnSpace : List Char → List (List Char)
  | [] => [[]]
  | c :: rest =>
    if c == Char.ofNat 32 then [] :: splitOnSpace rest
    else
      match splitOnSpace rest with
      | [] => [[c]]
      | h :: t => (c :: h) :: t

/-- The fuzzy score one option receives in `resolveWindowSelectionFromOptions`:
+60 for a normalized prefix match (else +45 for containment), +10 per matched
token (+10 when all tokens matched), +5 for the active window, and up to +8
inversely proportional to the length difference. -/
def fuzzyScore (normalizedRequested : String) (tokens : List String)
    (option : WindowSelectionOption) : Nat :=
  let normalizedTitle := normalizeWindowText option.title
  let normalizedDisplay := normalizeWindowText option.displayName
  let base :=
    if !normalizedRequested.data.isEmpty &&
        (normalizedRequested.data.isPrefixOf normalizedTitle.data ||
         normalizedRequested.data.isPrefixOf normalizedDisplay.data) then
      60
    else if !normalizedRequested.data.isEmpty &&
        (containsSubstr normalizedTitle.data normalizedRequested.data ||
         containsSubstr normalizedDisplay.data normalizedRequested.data) then
      45
    else 0
  let matchedTokens := tokens.filter (fun token =>
    1 < token.data.length &&
    (containsSubstr normalizedTitle.data token.data ||
     containsSubstr normalizedDisplay.data token.data))
  let tokenScore :=
    if !tokens.isEmpty && !matchedTokens.isEmpty then
      matchedTokens.length * 10 +
        (if matchedTokens.length = tokens.length then 10 else 0)
    else 0
  let activeScore := if option.isActive then 5 else 0
  let lengthBonus :=
    if !normalizedRequested.data.isEmpty && 0 < normalizedTitle.data.length then
      8 - (max normalizedTitle.data.length normalizedRequested.data.length -
        min normalizedTitle.data.length normalizedRequested.data.length)
    else 0
  base + tokenScore + activeScore + lengthBonus

/-- `resolveWindowSelectionFromOptions` from `gemini.ts`: empty or
quote-stripped-empty requests fail; an extracted explicit index returns that
option outright; then exact title match, exact display-name match, normalized
match; finally the fuzzy scan keeps the first strictly-best option and answers
only at score 15 or above. -/
def resolveWindowSelectionFromOptions (processName : String)
    (options : List WindowSelectionOption) (requested : String) : Option ResolvedWindow :=
  if requested.data.isEmpty then none
  else
    let cleaned : String := ⟨cleanRequested requested⟩
    if cleaned.data.isEmpty then none
    else
      let byIndex : Option ResolvedWindow :=
        match extractRequestedIndex cleaned options.length with
        | some idx =>
          match options.get? idx with
          | some option => some ⟨option.title, option.displayName, processName⟩
          | none => none
        | none => none
      match byIndex with
      | some r => some r
      | none =>
        let normalizedRequested := normalizeWindowText cleaned
        let tokens := ((splitOnSpace normalizedRequested.data).map
          (fun cs => (⟨cs⟩ : String))).filter (fun t => !t.data.isEmpty)
        match options.find? (fun option => toLowerCase option.title == toLowerCase cleaned) with
        | some directTitleMatch =>
          some ⟨directTitleMatch.title, directTitleMatch.displayName, processName⟩
        | none =>
          match options.find? (fun option =>
              toLowerCase option.displayName == toLowerCase cleaned) with
          | some directDisplayMatch =>
            some ⟨directDisplayMatch.title, directDisplayMatch.displayName, processName⟩
          | none =>
            match options.find? (fun option =>
                normalizeWindowText option.title == normalizedRequested ||
                normalizeWindowText option.displayName == normalizedRequested) with
            | some normalizedMatches =>
              some ⟨normalizedMatches.title, normalizedMatches.displayName, processName⟩
            | none =>
              let best := options.foldl
                (fun (acc : Option WindowSelectionOption × Nat) option =>
                  let score := fuzzyScore normalizedRequested tokens option
                  if acc.2 < score then (some option, score) else acc)
                (none, 0)
              match best.1 with
              | some bestOption =>
                if 15 ≤ best.2 then
                  some ⟨bestOption.title, bestOption.displayName, processName⟩
                else none
              | none => none

/-- An empty input extracts no index. -/
lemma extractRequestedIndex_empty (total : Nat) :
    extractRequestedIndex ⟨[]⟩ total = none := by
  simp [extractRequestedIndex, firstBoundedNumber, ordinalIndex, ORDINAL_WORDS,
    containsSubstr, toLowerCase]

/-- Two cached Chrome windows used by the C9 scenarios. -/
def chromeDocs : WindowSelectionOption :=
  ⟨"Docs - Google Chrome", "Docs", "chrome", true⟩

/-- The second cached Chrome window. -/
def chromeMail : WindowSelectionOption :=
  ⟨"Mail - Google Chrome", "Mail", "chrome", false⟩

/-- Counterexample to C9 as stated: the request "1 second" contains the
ordinal word for 2 with two options cached, yet the resolver returns the
candidate at index 0, not index 1 — the first word-bounded digit takes
precedence over ordinal words. -/
theorem ordinal_not_honored_when_digit_present :
    containsSubstr (toLowerCase "1 second").data "second".data = true ∧
    resolveWindowSelectionFromOptions "chrome" [chromeDocs, chromeMail] "1 second" =
      some ⟨"Docs - Google Chrome", "Docs", "chrome"⟩ ∧
    resolveWindowSelectionFromOptions "chrome" [chromeDocs, chromeMail] "1 second" ≠
      some ⟨"Mail - Google Chrome", "Mail", "chrome"⟩ := by
  decide

/-- C9 (amended): explicit index extraction is resolved first — whenever
`extractRequestedIndex` succeeds on the cleaned request, the resolver returns
exactly that candidate, before any exact, normalized or fuzzy matching — and
an in-range word-bounded digit takes precedence over ordinal words; the
request "the second one" against two cached windows resolves to the zero-based
index 1 without a fuzzy-score pass. -/
theorem index_extraction_precedes_matching (processName requested : String)
    (options : List WindowSelectionOption) (idx : Nat)
    (hextract : extractRequestedIndex ⟨cleanRequested requested⟩ options.length = some idx)
    (hlt : idx < options.length) :
    (resolveWindowSelectionFromOptions processName options requested =
      some ⟨(options.get ⟨idx, hlt⟩).title, (options.get ⟨idx, hlt⟩).displayName,
        processName⟩) ∧
    (∀ c, firstBoundedNumber (cleanRequested requested) = some c →
      1 ≤ c → c ≤ options.length → idx = c - 1) ∧
    resolveWindowSelectionFromOptions "chrome" [chromeDocs, chromeMail] "the second one" =
      some ⟨"Mail - Google Chrome", "Mail", "chrome"⟩ := by
  refine ⟨?_, ?_, by decide⟩
  · by_cases hreq : requested.data.isEmpty
    · exfalso
      have hclean : cleanRequested requested = [] := by
        unfold cleanRequested stripQuoteChars trimChars
        rw [List.isEmpty_iff.mp hreq]
        rfl
      rw [hclean, extractRequestedIndex_empty] at hextract
      cases hextract
    · unfold resolveWindowSelectionFromOptions
      rw [if_neg (by simp [hreq])]
      dsimp only
      have hcleanne : ((⟨cleanRequested requested⟩ : String)).data.isEmpty = false := by
        by_cases hc : (cleanRequested requested).isEmpty
        · exfalso
          have : cleanRequested requested = [] := List.isEmpty_iff.mp hc
          rw [this, extractRequestedIndex_empty] at hextract
          cases hextract
        · simpa using hc
      rw [if_neg (by simp [hcleanne])]
      rw [hextract]
      dsimp only
      rw [List.get?_eq_get hlt]

  · intro c hc h1 hc2
    unfold extractRequestedIndex at hextract
    rw [hc] at hextract
    dsimp only at hextract
    rw [if_pos (by simp [h1, hc2])] at hextract
    exact (Option.some.injEq _ _ ▸ hextract).symm

/-- Witness for C9 (amended): "the second one" against the two cached Chrome
windows resolves to the candidate at zero-based index 1. -/
theorem index_extraction_precedes_matching_witness :
    resolveWindowSelectionFromOptions "chrome" [chromeDocs, chromeMail] "the second one" =
      some ⟨"Mail - Google Chrome", "Mail", "chrome"⟩ :=
  (index_extraction_precedes_matching "chrome" "the second one" [chromeDocs, chromeMail] 1
    (by decide) (by decide)).1

/-! ## Heuristic tool-call augmentation (`sendMessageWithVision`, the block
after stream consumption) -/

/-- The argument payload of a collected tool call, as the augmentation block
inspects it: an execute_command payload with its command string and argument
array, a capture payload, or anything else (including payloads missing those
fields, which every predicate treats as non-matching, as the optional-chaining
checks in the source do). -/
inductive ToolArgs where
  | execArgs (command : String) (args : List String)
  | captureArgs (process_name : Option String) (window_title : Option String)
  | otherArgs
deriving DecidableEq, Repr

/-- One entry of the collected `functionCalls` list. -/
structure ToolCall where
  name : String
  args : ToolArgs
deriving DecidableEq, Repr

/-- An execute_command tool call. -/
def mkExec (command : String) (args : List String) : ToolCall :=
  ⟨"execute_command", .execArgs command args⟩

/-- The injected `docker ps` call. -/
def dockerPsCall : ToolCall := mkExec "docker" ["ps"]

/-- The injected `docker ps -a` call. -/
def dockerPsAllCall : ToolCall := mkExec "docker" ["ps", "-a"]

/-- The injected `docker logs --tail 200 container` call. -/
def dockerLogsCall (container : String) : ToolCall :=
  mkExec "docker" ["logs", "--tail", "200", container]

/-- An execute_command entry whose argument array satisfies the predicate. -/
def isExecWith (p : String → List String → Bool) (fc : ToolCall) : Bool :=
  fc.name == "execute_command" &&
    match fc.args with
    | .execArgs command args => p command args
    | _ => false

/-- `hasLogsCommand`: some execute_command argument array contains "logs". -/
def hasLogsCommand (calls : List ToolCall) : Bool :=
  calls.any (isExecWith (fun _ args => args.contains "logs"))

/-- `hasPsCommand`: a docker execute_command with "ps" but not "-a". -/
def hasPsCommand (calls : List ToolCall) : Bool :=
  calls.any (isExecWith (fun command args =>
    command == "docker" && args.contains "ps" && !args.contains "-a"))

/-- `hasPsAllCommand` / `hasPsAll`: a docker execute_command with "ps" and "-a". -/
def hasPsAllCommand (calls : List ToolCall) : Bool :=
  calls.any (isExecWith (fun command args =>
    command == "docker" && args.contains "ps" && args.contains "-a"))

/-- `hasExecuteCommand` as first computed: any execute_command entry. -/
def hasExecuteCommandIn (calls : List ToolCall) : Bool :=
  calls.any (fun fc => fc.name == "execute_command")

/-- `hasDockerCapture`: a capture call whose process name mentions docker. -/
def hasDockerCaptureIn (calls : List ToolCall) : Bool :=
  calls.any (fun fc =>
    fc.name == "capture_window_with_ocr" &&
      match fc.args with
      | .captureArgs (some p) _ => containsSubstr (toLowerCase p).data "docker".data
      | _ => false)

/-- The mutable locals of the augmentation block: the call list, the
`scheduledCommands` key set, the `dockerPsAllScheduled` flag, the
`hasExecuteCommand` flag, and — instrumentation for the proofs — the list of
calls the block itself injected. -/
structure AugmentState where
  calls : List ToolCall
  scheduled : List String
  dockerPsAllScheduled : Bool
  hasExecuteCommand : Bool
  injected : List ToolCall
deriving DecidableEq, Repr

/-- One injection: place the call at the front (`unshift`) or back (`push`),
record its `scheduledCommands` key when the source does, raise
`dockerPsAllScheduled` when asked, and mark `hasExecuteCommand`. -/
def inject (front : Bool) (call : ToolCall) (schedKey : Option String) (psAllFlag : Bool)
    (st : AugmentState) : AugmentState :=
  { calls := if front then call :: st.calls else st.calls ++ [call]
    scheduled :=
      match schedKey with
      | some k => st.scheduled ++ [k]
      | none => st.scheduled
    dockerPsAllScheduled := st.dockerPsAllScheduled || psAllFlag
    hasExecuteCommand := true
    injected := st.injected ++ [call] }

/-- The `functionCalls.length === 0` block: push `docker ps -a` and the logs
call for an explicit logs request, else push `docker ps` for docker-status
questions. -/
def stageA (wrap wantsLogs needsDockerPs explicitDockerQuestion hasDockerContext : Bool)
    (logsMatch : Option String) (st : AugmentState) : AugmentState :=
  if st.calls.isEmpty then
    if !wrap && logsMatch.isSome && wantsLogs then
      let containerName := logsMatch.getD ""
      let st1 :=
        if !st.scheduled.contains "docker::ps-a" then
          inject false dockerPsAllCall (some "docker::ps-a") true st
        else st
      if !st1.scheduled.contains ("docker::logs::" ++ toLowerCase containerName) then
        inject false (dockerLogsCall containerName)
          (some ("docker::logs::" ++ toLowerCase containerName)) false st1
      else st1
    else if !wrap && (needsDockerPs || (explicitDockerQuestion && hasDockerContext)) then
      if !st.scheduled.contains "docker::ps" then
        inject false dockerPsCall (some "docker::ps") false st
      else st
    else st
  else st

/-- The logs branch of the `functionCalls.length > 0` block: when the user
asked for logs and no logs call is present, unshift `docker ps -a` (unless one
is present or scheduled) and unshift the logs call. -/
def stageBlogs (wrap wantsLogs : Bool) (logsMatch : Option String) (st : AugmentState) :
    AugmentState :=
  if !wrap && logsMatch.isSome && wantsLogs && !hasLogsCommand st.calls then
    let containerName := logsMatch.getD ""
    let st1 :=
      if !hasPsAllCommand st.calls then
        if !st.scheduled.contains "docker::ps-a" then
          inject true dockerPsAllCall (some "docker::ps-a") true st
        else st
      else st
    inject true (dockerLogsCall containerName) none false st1
  else st

/-- The `docker ps` injection branch. -/
def stageBps (wrap needsDockerPs : Bool) (st : AugmentState) : AugmentState :=
  if !wrap && needsDockerPs && !hasPsCommand st.calls then
    if !st.scheduled.contains "docker::ps" then
      inject true dockerPsCall (some "docker::ps") false st
    else st
  else st

/-- The `docker ps -a` injection branch. -/
def stageBpsAll (wrap needsDockerPsAll : Bool) (st : AugmentState) : AugmentState :=
  if !wrap && needsDockerPsAll && !hasPsAllCommand st.calls && !st.dockerPsAllScheduled then
    if !st.scheduled.contains "docker::ps-a" then
      inject true dockerPsAllCall (some "docker::ps-a") true st
    else st
  else st

/-- The docker-capture fallback: a docker question with a docker capture but no
execute_command at all gets `docker ps` unshifted. -/
def stageBcapture (isDockerQuestion hasDockerContext hasDockerCapture0 : Bool)
    (st : AugmentState) : AugmentState :=
  if (isDockerQuestion || hasDockerContext) && hasDockerCapture0 && !st.hasExecuteCommand then
    inject true dockerPsCall none false st
  else st

/-- The whole augmentation block of `sendMessageWithVision` (`gemini.ts`),
its text-heuristic booleans taken as parameters: the stage-A push block for an
empty call list, then — when calls exist — the logs, ps, ps -a and capture
injection branches in source order. -/
def heuristicAugmentation (wrap explicitDockerQuestion wantsLogs hasActionVerb
    mentionsSpecificContainer mentionsContainersPlural hasDockerContext : Bool)
    (logsMatch : Option String) (calls0 : List ToolCall) : AugmentState :=
  let needsDockerPs :=
    !wrap && (mentionsContainersPlural || mentionsSpecificContainer || explicitDockerQuestion)
  let needsDockerPsAll := !wrap && (wantsLogs || mentionsSpecificContainer)
  let isDockerQuestion := explicitDockerQuestion || hasActionVerb
  let stA := stageA wrap wantsLogs needsDockerPs explicitDockerQuestion hasDockerContext
    logsMatch ⟨calls0, [], false, false, []⟩
  if stA.calls.isEmpty then stA
  else
    let hasDockerCapture0 := hasDockerCaptureIn stA.calls
    let stB0 := { stA with hasExecuteCommand := hasExecuteCommandIn stA.calls }
    stageBcapture isDockerQuestion hasDockerContext hasDockerCapture0
      (stageBpsAll wrap needsDockerPsAll
        (stageBps wrap needsDockerPs
          (stageBlogs wrap wantsLogs logsMatch stB0)))

@[simp] lemma inject_calls_front (call : ToolCall) (k : Option String) (flag : Bool)
    (st : AugmentState) : (inject true call k flag st).calls = call :: st.calls := rfl

@[simp] lemma inject_calls_back (call : ToolCall) (k : Option String) (flag : Bool)
    (st : AugmentState) : (inject false call k flag st).calls = st.calls ++ [call] := rfl

@[simp] lemma inject_injected (front : Bool) (call : ToolCall) (k : Option String)
    (flag : Bool) (st : AugmentState) :
    (inject front call k flag st).injected = st.injected ++ [call] := by
  cases front <;> rfl

@[simp] lemma inject_hasExecuteCommand (front : Bool) (call : ToolCall) (k : Option String)
    (flag : Bool) (st : AugmentState) :
    (inject front call k flag st).hasExecuteCommand = true := by
  cases front <;> rfl

lemma isExecWith_imp_exec (p : String → List String → Bool) (fc : ToolCall)
    (h : isExecWith p fc = true) : (fc.name == "execute_command") = true := by
  unfold isExecWith at h
  simp only [Bool.and_eq_true] at h
  exact h.1

lemma no_exec_no_pred (l : List ToolCall) (p : String → List String → Bool)
    (h : hasExecuteCommandIn l = false) : l.any (isExecWith p) = false := by
  cases hp : l.any (isExecWith p)
  · rfl
  · rcases List.any_eq_true.mp hp with ⟨x, hx, hpx⟩
    have hx2 := isExecWith_imp_exec p x hpx
    have hl : hasExecuteCommandIn l = true := List.any_eq_true.mpr ⟨x, hx, hx2⟩
    rw [hl] at h
    cases h

lemma any_mono {α : Type} (p : α → Bool) {l₁ l₂ : List α} (hsub : ∀ c ∈ l₁, c ∈ l₂)
    (h : l₁.any p = true) : l₂.any p = true := by
  rcases List.any_eq_true.mp h with ⟨x, hx, hpx⟩
  exact List.any_eq_true.mpr ⟨x, hsub x hx, hpx⟩

lemma any_mono_false {α : Type} (p : α → Bool) {l₁ l₂ : List α} (hsub : ∀ c ∈ l₁, c ∈ l₂)
    (h : l₂.any p = false) : l₁.any p = false := by
  cases hal : l₁.any p
  · rfl
  · rw [any_mono p hsub hal] at h
    cases h

lemma stageBps_spec (wrap needs : Bool) (st : AugmentState) :
    (∀ c ∈ st.calls, c ∈ (stageBps wrap needs st).calls) ∧
    (∀ c ∈ st.injected, c ∈ (stageBps wrap needs st).injected) ∧
    (∀ c ∈ (stageBps wrap needs st).calls,
      c ∈ st.calls ∨ c ∈ (stageBps wrap needs st).injected) ∧
    (∀ c ∈ (stageBps wrap needs st).injected,
      c ∈ st.injected ∨ (c = dockerPsCall ∧ hasPsCommand st.calls = false)) ∧
    ((stageBps wrap needs st).hasExecuteCommand = false → st.hasExecuteCommand = false) := by
  unfold stageBps
  split
  · rename_i hcond
    have hps : hasPsCommand st.calls = false := by
      simp only [Bool.and_eq_true, Bool.not_eq_true'] at hcond
      tauto
    split
    · refine ⟨?_, ?_, ?_, ?_, ?_⟩ <;> simp <;> intro c hc <;> tauto
    · exact ⟨fun _ hc => hc, fun _ hc => hc, fun _ hc => Or.inl hc,
        fun _ hc => Or.inl hc, fun h => h⟩
  · exact ⟨fun _ hc => hc, fun _ hc => hc, fun _ hc => Or.inl hc,
      fun _ hc => Or.inl hc, fun h => h⟩

lemma stageBpsAll_spec (wrap needs : Bool) (st : AugmentState) :
    (∀ c ∈ st.calls, c ∈ (stageBpsAll wrap needs st).calls) ∧
    (∀ c ∈ st.injected, c ∈ (stageBpsAll wrap needs st).injected) ∧
    (∀ c ∈ (stageBpsAll wrap needs st).calls,
      c ∈ st.calls ∨ c ∈ (stageBpsAll wrap needs st).injected) ∧
    (∀ c ∈ (stageBpsAll wrap needs st).injected,
      c ∈ st.injected ∨ (c = dockerPsAllCall ∧ hasPsAllCommand st.calls = false)) ∧
    ((stageBpsAll wrap needs st).hasExecuteCommand = false → st.hasExecuteCommand = false) := by
  unfold stageBpsAll
  split
  · rename_i hcond
    have hps : hasPsAllCommand st.calls = false := by
      simp only [Bool.and_eq_true, Bool.not_eq_true'] at hcond
      tauto
    split
    · refine ⟨?_, ?_, ?_, ?_, ?_⟩ <;> simp <;> intro c hc <;> tauto
    · exact ⟨fun _ hc => hc, fun _ hc => hc, fun _ hc => Or.inl hc,
        fun _ hc => Or.inl hc, fun h => h⟩
  · exact ⟨fun _ hc => hc, fun _ hc => hc, fun _ hc => Or.inl hc,
      fun _ hc => Or.inl hc, fun h => h⟩

lemma stageBcapture_spec (isQ hasCtx hasCap : Bool) (st : AugmentState) :
    (∀ c ∈ st.calls, c ∈ (stageBcapture isQ hasCtx hasCap st).calls) ∧
    (∀ c ∈ st.injected, c ∈ (stageBcapture isQ hasCtx hasCap st).injected) ∧
    (∀ c ∈ (stageBcapture isQ hasCtx hasCap st).calls,
      c ∈ st.calls ∨ c ∈ (stageBcapture isQ hasCtx hasCap st).injected) ∧
    (∀ c ∈ (stageBcapture isQ hasCtx hasCap st).injected,
      c ∈ st.injected ∨ (c = dockerPsCall ∧ st.hasExecuteCommand = false)) ∧
    ((stageBcapture isQ hasCtx hasCap st).hasExecuteCommand = false →
      st.hasExecuteCommand = false) := by
  unfold stageBcapture
  split
  · rename_i hcond
    have hexec : st.hasExecuteCommand = false := by
      simp only [Bool.and_eq_true, Bool.not_eq_true'] at hcond
      tauto
    refine ⟨?_, ?_, ?_, ?_, ?_⟩ <;> simp <;> intro c hc <;> tauto
  · exact ⟨fun _ hc => hc, fun _ hc => hc, fun _ hc => Or.inl hc,
      fun _ hc => Or.inl hc, fun h => h⟩

lemma stageBlogs_spec (wrap wantsLogs : Bool) (logsMatch : Option String)
    (st : AugmentState) :
    (∀ c ∈ st.calls, c ∈ (stageBlogs wrap wantsLogs logsMatch st).calls) ∧
    (∀ c ∈ st.injected, c ∈ (stageBlogs wrap wantsLogs logsMatch st).injected) ∧
    (∀ c ∈ (stageBlogs wrap wantsLogs logsMatch st).calls,
      c ∈ st.calls ∨ c ∈ (stageBlogs wrap wantsLogs logsMatch st).injected) ∧
    (∀ c ∈ (stageBlogs wrap wantsLogs logsMatch st).injected,
      c ∈ st.injected ∨
        (c = dockerPsAllCall ∧ hasPsAllCommand st.calls = false) ∨
        (∃ container, c = dockerLogsCall container ∧ hasLogsCommand st.calls = false)) ∧
    ((stageBlogs wrap wantsLogs logsMatch st).hasExecuteCommand = false →
      st.hasExecuteCommand = false) := by
  unfold stageBlogs
  split
  · rename_i hcond
    have hlogs : hasLogsCommand st.calls = false := by
      simp only [Bool.and_eq_true, Bool.not_eq_true'] at hcond
      tauto
    split
    · split
      · rename_i hpsall hk
        have hps : hasPsAllCommand st.calls = false := by
          simp only [Bool.not_eq_true'] at hpsall
          exact hpsall
        refine ⟨?_, ?_, ?_, ?_, ?_⟩
        · intro c hc
          simp [hc]
        · intro c hc
          simp [hc]
        · intro c hc
          simp at hc ⊢
          tauto
        · intro c hc
          simp at hc
          rcases hc with hc | rfl | rfl
          · exact Or.inl hc
          · exact Or.inr (Or.inl ⟨rfl, hps⟩)
          · exact Or.inr (Or.inr ⟨_, rfl, hlogs⟩)
        · intro h
          simp at h
      · refine ⟨?_, ?_, ?_, ?_, ?_⟩
        · intro c hc
          simp [hc]
        · intro c hc
          simp [hc]
        · intro c hc
          simp at hc ⊢
          tauto
        · intro c hc
          simp at hc
          rcases hc with hc | rfl
          · exact Or.inl hc
          · exact Or.inr (Or.inr ⟨_, rfl, hlogs⟩)
        · intro h
          simp at h
    · refine ⟨?_, ?_, ?_, ?_, ?_⟩
      · intro c hc
        simp [hc]
      · intro c hc
        simp [hc]
      · intro c hc
        simp at hc ⊢
        tauto
      · intro c hc
        simp at hc
        rcases hc with hc | rfl
        · exact Or.inl hc
        · exact Or.inr (Or.inr ⟨_, rfl, hlogs⟩)
      · intro h
        simp at h
  · exact ⟨fun _ hc => hc, fun _ hc => hc, fun _ hc => Or.inl hc,
      fun _ hc => Or.inl hc, fun h => h⟩

lemma stageA_spec (wrap wantsLogs needs expQ hasCtx : Bool) (logsMatch : Option String)
    (st : AugmentState) :
    (∀ c ∈ st.calls, c ∈ (stageA wrap wantsLogs needs expQ hasCtx logsMatch st).calls) ∧
    (∀ c ∈ st.injected, c ∈ (stageA wrap wantsLogs needs expQ hasCtx logsMatch st).injected) ∧
    (∀ c ∈ (stageA wrap wantsLogs needs expQ hasCtx logsMatch st).calls,
      c ∈ st.calls ∨ c ∈ (stageA wrap wantsLogs needs expQ hasCtx logsMatch st).injected) ∧
    (∀ c ∈ (stageA wrap wantsLogs needs expQ hasCtx logsMatch st).injected,
      c ∈ st.injected ∨
        (st.calls = [] ∧ (c = dockerPsCall ∨ c = dockerPsAllCall ∨
          ∃ container, c = dockerLogsCall container))) := by
  unfold stageA
  split
  · rename_i hempty
    have hnil : st.calls = [] := by simpa [List.isEmpty_iff] using hempty
    split
    · split
      · dsimp only
        split
        · refine ⟨?_, ?_, ?_, ?_⟩
          · intro c hc
            simp [hc]
          · intro c hc
            simp [hc]
          · intro c hc
            simp at hc ⊢
            tauto
          · intro c hc
            simp at hc
            rcases hc with hc | rfl | rfl
            · exact Or.inl hc
            · exact Or.inr ⟨hnil, Or.inr (Or.inl rfl)⟩
            · exact Or.inr ⟨hnil, Or.inr (Or.inr ⟨_, rfl⟩)⟩
        · refine ⟨?_, ?_, ?_, ?_⟩
          · intro c hc
            simp [hc]
          · intro c hc
            simp [hc]
          · intro c hc
            simp at hc ⊢
            tauto
          · intro c hc
            simp at hc
            rcases hc with hc | rfl
            · exact Or.inl hc
            · exact Or.inr ⟨hnil, Or.inr (Or.inl rfl)⟩
      · dsimp only
        split
        · refine ⟨?_, ?_, ?_, ?_⟩
          · intro c hc
            simp [hc]
          · intro c hc
            simp [hc]
          · intro c hc
            simp at hc ⊢
            tauto
          · intro c hc
            simp at hc
            rcases hc with hc | rfl
            · exact Or.inl hc
            · exact Or.inr ⟨hnil, Or.inr (Or.inr ⟨_, rfl⟩)⟩
        · exact ⟨fun _ hc => hc, fun _ hc => hc, fun _ hc => Or.inl hc, fun _ hc => Or.inl hc⟩
    · split
      · split
        · refine ⟨?_, ?_, ?_, ?_⟩
          · intro c hc
            simp [hc]
          · intro c hc
            simp [hc]
          · intro c hc
            simp at hc ⊢
            tauto
          · intro c hc
            simp at hc
            rcases hc with hc | rfl
            · exact Or.inl hc
            · exact Or.inr ⟨hnil, Or.inl rfl⟩
        · exact ⟨fun _ hc => hc, fun _ hc => hc, fun _ hc => Or.inl hc, fun _ hc => Or.inl hc⟩
      · exact ⟨fun _ hc => hc, fun _ hc => hc, fun _ hc => Or.inl hc, fun _ hc => Or.inl hc⟩
  · exact ⟨fun _ hc => hc, fun _ hc => hc, fun _ hc => Or.inl hc, fun _ hc => Or.inl hc⟩

lemma ps_ne_psAll : dockerPsCall ≠ dockerPsAllCall := by decide

lemma ps_ne_logs (container : String) : dockerPsCall ≠ dockerLogsCall container := by
  intro h
  simp [dockerPsCall, dockerLogsCall, mkExec] at h

lemma psAll_ne_logs (container : String) : dockerPsAllCall ≠ dockerLogsCall container := by
  intro h
  simp [dockerPsAllCall, dockerLogsCall, mkExec] at h

lemma pipelineB_spec (w n1 n2 q ctx cap wl : Bool) (lm : Option String) (st : AugmentState) :
    (∀ c ∈ st.calls,
      c ∈ (stageBcapture q ctx cap (stageBpsAll w n2 (stageBps w n1
        (stageBlogs w wl lm st)))).calls) ∧
    (∀ c ∈ (stageBcapture q ctx cap (stageBpsAll w n2 (stageBps w n1
        (stageBlogs w wl lm st)))).calls,
      c ∈ st.calls ∨ c ∈ (stageBcapture q ctx cap (stageBpsAll w n2 (stageBps w n1
        (stageBlogs w wl lm st)))).injected) ∧
    (∀ c ∈ st.injected,
      c ∈ (stageBcapture q ctx cap (stageBpsAll w n2 (stageBps w n1
        (stageBlogs w wl lm st)))).injected) ∧
    (∀ c ∈ (stageBcapture q ctx cap (stageBpsAll w n2 (stageBps w n1
        (stageBlogs w wl lm st)))).injected,
      c ∈ st.injected ∨ c = dockerPsCall ∨ c = dockerPsAllCall ∨
        ∃ container, c = dockerLogsCall container) ∧
    (dockerPsCall ∈ (stageBcapture q ctx cap (stageBpsAll w n2 (stageBps w n1
        (stageBlogs w wl lm st)))).injected →
      dockerPsCall ∈ st.injected ∨ hasPsCommand st.calls = false ∨
        st.hasExecuteCommand = false) ∧
    (dockerPsAllCall ∈ (stageBcapture q ctx cap (stageBpsAll w n2 (stageBps w n1
        (stageBlogs w wl lm st)))).injected →
      dockerPsAllCall ∈ st.injected ∨ hasPsAllCommand st.calls = false) ∧
    (∀ container, dockerLogsCall container ∈ (stageBcapture q ctx cap (stageBpsAll w n2
        (stageBps w n1 (stageBlogs w wl lm st)))).injected →
      dockerLogsCall container ∈ st.injected ∨ hasLogsCommand st.calls = false) := by
  obtain ⟨l1, l2, l3, l4, l5⟩ := stageBlogs_spec w wl lm st
  obtain ⟨p1, p2, p3, p4, p5⟩ := stageBps_spec w n1 (stageBlogs w wl lm st)
  obtain ⟨a1, a2, a3, a4, a5⟩ := stageBpsAll_spec w n2 (stageBps w n1 (stageBlogs w wl lm st))
  obtain ⟨c1, c2, c3, c4, c5⟩ := stageBcapture_spec q ctx cap
    (stageBpsAll w n2 (stageBps w n1 (stageBlogs w wl lm st)))
  have hcallsub : ∀ c ∈ st.calls,
      c ∈ (stageBpsAll w n2 (stageBps w n1 (stageBlogs w wl lm st))).calls :=
    fun c hc => a1 c (p1 c (l1 c hc))
  refine ⟨?_, ?_, ?_, ?_, ?_, ?_, ?_⟩
  · exact fun c hc => c1 c (hcallsub c hc)
  · intro c hc
    rcases c3 c hc with hc3 | hc3
    · rcases a3 c hc3 with hc2 | hc2
      · rcases p3 c hc2 with hc1 | hc1
        · rcases l3 c hc1 with hc0 | hc0
          · exact Or.inl hc0
          · exact Or.inr (c2 c (a2 c (p2 c hc0)))
        · exact Or.inr (c2 c (a2 c hc1))
      · exact Or.inr (c2 c hc2)
    · exact Or.inr hc3
  · exact fun c hc => c2 c (a2 c (p2 c (l2 c hc)))
  · intro c hc
    rcases c4 c hc with hc3 | ⟨rfl, _⟩
    · rcases a4 c hc3 with hc2 | ⟨rfl, _⟩
      · rcases p4 c hc2 with hc1 | ⟨rfl, _⟩
        · rcases l4 c hc1 with hc0 | ⟨rfl, _⟩ | ⟨cont, rfl, _⟩
          · exact Or.inl hc0
          · exact Or.inr (Or.inr (Or.inl rfl))
          · exact Or.inr (Or.inr (Or.inr ⟨cont, rfl⟩))
        · exact Or.inr (Or.inl rfl)
      · exact Or.inr (Or.inr (Or.inl rfl))
    · exact Or.inr (Or.inl rfl)
  · intro hmem
    rcases c4 _ hmem with hc3 | ⟨_, hexec3⟩
    · rcases a4 _ hc3 with hc2 | ⟨heq, _⟩
      · rcases p4 _ hc2 with hc1 | ⟨_, hps1⟩
        · rcases l4 _ hc1 with hc0 | ⟨heq, _⟩ | ⟨cont, heq, _⟩
          · exact Or.inl hc0
          · exact absurd heq ps_ne_psAll
          · exact absurd heq (ps_ne_logs cont)
        · exact Or.inr (Or.inl (any_mono_false _ (fun c hc => l1 c hc) hps1))
      · exact absurd heq ps_ne_psAll
    · exact Or.inr (Or.inr (l5 (p5 (a5 hexec3))))
  · intro hmem
    rcases c4 _ hmem with hc3 | ⟨heq, _⟩
    · rcases a4 _ hc3 with hc2 | ⟨_, hps2⟩
      · rcases p4 _ hc2 with hc1 | ⟨heq, _⟩
        · rcases l4 _ hc1 with hc0 | ⟨_, hps0⟩ | ⟨cont, heq, _⟩
          · exact Or.inl hc0
          · exact Or.inr hps0
          · exact absurd heq (psAll_ne_logs cont)
        · exact absurd heq.symm ps_ne_psAll
      · exact Or.inr (any_mono_false _ (fun c hc => p1 c (l1 c hc)) hps2)
    · exact absurd heq.symm ps_ne_psAll
  · intro container hmem
    rcases c4 _ hmem with hc3 | ⟨heq, _⟩
    · rcases a4 _ hc3 with hc2 | ⟨heq, _⟩
      · rcases p4 _ hc2 with hc1 | ⟨heq, _⟩
        · rcases l4 _ hc1 with hc0 | ⟨heq, _⟩ | ⟨cont, heq, hlogs0⟩
          · exact Or.inl hc0
          · exact absurd heq.symm (psAll_ne_logs container)
          · exact Or.inr hlogs0
        · exact absurd heq.symm (ps_ne_logs container)
      · exact absurd heq.symm (psAll_ne_logs container)
    · exact absurd heq.symm (ps_ne_logs container)

/-- C5: every heuristically injected tool call is additive and read-only: the
collected calls all survive augmentation, anything new in the list is one of
the three injected shapes (`docker ps`, `docker ps -a`,
`docker logs --tail 200 container`), each of those classifies auto/context
under `evaluateCommandPolicy` for every container name, and each shape is
injected only when no equivalent execute_command call is present in the
collected list for the turn. -/
theorem injected_calls_read_only_and_additive
    (wrap expQ wantsLogs hasVerb mSpec mPlural hasCtx : Bool)
    (logsMatch : Option String) (calls0 : List ToolCall) :
    (∀ container : String,
      (evaluateCommandPolicy "docker" ["ps"]).level = .auto ∧
      (evaluateCommandPolicy "docker" ["ps"]).category = .context ∧
      (evaluateCommandPolicy "docker" ["ps", "-a"]).level = .auto ∧
      (evaluateCommandPolicy "docker" ["ps", "-a"]).category = .context ∧
      (evaluateCommandPolicy "docker" ["logs", "--tail", "200", container]).level = .auto ∧
      (evaluateCommandPolicy "docker" ["logs", "--tail", "200", container]).category
        = .context) ∧
    (∀ c ∈ calls0,
      c ∈ (heuristicAugmentation wrap expQ wantsLogs hasVerb mSpec mPlural hasCtx
        logsMatch calls0).calls) ∧
    (∀ c ∈ (heuristicAugmentation wrap expQ wantsLogs hasVerb mSpec mPlural hasCtx
        logsMatch calls0).calls,
      c ∈ calls0 ∨ c ∈ (heuristicAugmentation wrap expQ wantsLogs hasVerb mSpec mPlural
        hasCtx logsMatch calls0).injected) ∧
    (∀ c ∈ (heuristicAugmentation wrap expQ wantsLogs hasVerb mSpec mPlural hasCtx
        logsMatch calls0).injected,
      c = dockerPsCall ∨ c = dockerPsAllCall ∨ ∃ container, c = dockerLogsCall container) ∧
    (dockerPsCall ∈ (heuristicAugmentation wrap expQ wantsLogs hasVerb mSpec mPlural hasCtx
        logsMatch calls0).injected → hasPsCommand calls0 = false) ∧
    (dockerPsAllCall ∈ (heuristicAugmentation wrap expQ wantsLogs hasVerb mSpec mPlural
        hasCtx logsMatch calls0).injected → hasPsAllCommand calls0 = false) ∧
    (∀ container, dockerLogsCall container ∈ (heuristicAugmentation wrap expQ wantsLogs
        hasVerb mSpec mPlural hasCtx logsMatch calls0).injected →
      hasLogsCommand calls0 = false) := by
  refine ⟨?_, ?_⟩
  · intro container
    refine ⟨by decide, by decide, by decide, by decide, ?_, ?_⟩ <;>
      simp [evaluateCommandPolicy, allRules, forbiddenCommands, criticalRules,
        contextOnlyRules, matchesRule, buildDecision, toLowerCase]
  obtain ⟨sA1, sA2, sA3, sA4⟩ := stageA_spec wrap wantsLogs
    (!wrap && (mPlural || mSpec || expQ)) expQ hasCtx logsMatch
    ⟨calls0, [], false, false, []⟩
  dsimp only at sA1 sA2 sA3 sA4
  unfold heuristicAugmentation
  dsimp only
  split
  · rename_i hempty
    refine ⟨sA1, ?_, ?_, ?_, ?_, ?_⟩
    · intro c hc
      rcases sA3 c hc with hc0 | hc0
      · exact Or.inl hc0
      · exact Or.inr hc0
    · intro c hc
      rcases sA4 c hc with hc0 | ⟨_, hshape⟩
      · cases hc0
      · exact hshape
    · intro hmem
      rcases sA4 _ hmem with hc0 | ⟨hnil, _⟩
      · cases hc0
      · rw [hnil]
        rfl
    · intro hmem
      rcases sA4 _ hmem with hc0 | ⟨hnil, _⟩
      · cases hc0
      · rw [hnil]
        rfl
    · intro container hmem
      rcases sA4 _ hmem with hc0 | ⟨hnil, _⟩
      · cases hc0
      · rw [hnil]
        rfl
  · rename_i hne
    obtain ⟨b1, b2, b3, b4, b5, b6, b7⟩ := pipelineB_spec wrap
      (!wrap && (mPlural || mSpec || expQ)) (!wrap && (wantsLogs || mSpec))
      (expQ || hasVerb) hasCtx
      (hasDockerCaptureIn (stageA wrap wantsLogs (!wrap && (mPlural || mSpec || expQ)) expQ
        hasCtx logsMatch ⟨calls0, [], false, false, []⟩).calls)
      wantsLogs logsMatch
      { stageA wrap wantsLogs (!wrap && (mPlural || mSpec || expQ)) expQ hasCtx logsMatch
          ⟨calls0, [], false, false, []⟩ with
        hasExecuteCommand := hasExecuteCommandIn (stageA wrap wantsLogs
          (!wrap && (mPlural || mSpec || expQ)) expQ hasCtx logsMatch
          ⟨calls0, [], false, false, []⟩).calls }
    refine ⟨?_, ?_, ?_, ?_, ?_, ?_⟩
    · exact fun c hc => b1 c (sA1 c hc)
    · intro c hc
      rcases b2 c hc with hc1 | hc1
      · rcases sA3 c hc1 with hc0 | hc0
        · exact Or.inl hc0
        · exact Or.inr (b3 c hc0)
      · exact Or.inr hc1
    · intro c hc
      rcases b4 c hc with hc1 | hshape
      · rcases sA4 c hc1 with hc0 | ⟨_, hshape⟩
        · cases hc0
        · exact hshape
      · exact hshape
    · intro hmem
      rcases b5 hmem with hc1 | hps | hexec
      · rcases sA4 _ hc1 with hc0 | ⟨hnil, _⟩
        · cases hc0
        · rw [hnil]
          rfl
      · exact any_mono_false _ sA1 hps
      · have := no_exec_no_pred _
          (fun command args => command == "docker" && args.contains "ps" &&
            !args.contains "-a") hexec
        exact any_mono_false _ sA1 this
    · intro hmem
      rcases b6 hmem with hc1 | hps
      · rcases sA4 _ hc1 with hc0 | ⟨hnil, _⟩
        · cases hc0
        · rw [hnil]
          rfl
      · exact any_mono_false _ sA1 hps
    · intro container hmem
      rcases b7 container hmem with hc1 | hlogs
      · rcases sA4 _ hc1 with hc0 | ⟨hnil, _⟩
        · cases hc0
        · rw [hnil]
          rfl
      · exact any_mono_false _ sA1 hlogs


/-- Witness for C5: a docker status question with no collected calls gets
`docker ps` injected, and no equivalent call was present. -/
theorem injected_calls_read_only_and_additive_witness :
    dockerPsCall ∈
      (heuristicAugmentation false true false false false false false none []).injected ∧
    hasPsCommand ([] : List ToolCall) = false :=
  ⟨by decide,
    (injected_calls_read_only_and_additive false true false false false false false
      none []).2.2.2.2.1 (by decide)⟩

/-! ## Streamed-response scanning (`scanForFunctionCalls` / `addFunctionCall`
in `gemini.ts`) -/

/-- An untyped JavaScript value as the scanner sees it. `vfunc ret` is a
callable whose invocation would produce `ret` (`none` models returning
undefined); the scanner may call only the SDK helpers `functionCalls` and
`candidates` and must never invoke any other embedded callable. -/
inductive JsVal where
  | vnull
  | vbool (b : Bool)
  | vnum (n : Int)
  | vstr (s : String)
  | vfunc (ret : Option JsVal)
  | varr (items : List JsVal)
  | vobj (fields : List (String × JsVal))

/-- Property lookup on an object's fields. -/
def getProp (fields : List (String × JsVal)) (k : String) : Option JsVal :=
  (fields.find? (fun f => f.1 == k)).map Prod.snd

/-- JavaScript truthiness. -/
def jsTruthy : JsVal → Bool
  | .vnull => false
  | .vbool b => b
  | .vnum n => n != 0
  | .vstr s => !s.data.isEmpty
  | .vfunc _ => true
  | .varr _ => true
  | .vobj _ => true

/-- `typeof x === "object"` (null and arrays included, functions excluded). -/
def jsTypeofObject : JsVal → Bool
  | .vnull => true
  | .varr _ => true
  | .vobj _ => true
  | _ => false

/-- Decimal digits of a natural number (fuel-driven so the kernel evaluates it). -/
def natToCharsGo : Nat → Nat → List Char → List Char
  | 0, _, acc => acc
  | fuel + 1, n, acc =>
    let d := Char.ofNat (48 + n % 10)
    if n < 10 then d :: acc else natToCharsGo fuel (n / 10) (d :: acc)

/-- Decimal rendering of an integer (JavaScript `String(number)` on integers). -/
def intToChars (i : Int) : List Char :=
  if i < 0 then Char.ofNat 45 :: natToCharsGo (i.natAbs + 1) i.natAbs []
  else natToCharsGo (i.toNat + 1) i.toNat []

/-- JSON string escaping of the quote and backslash characters. -/
def escapeJsonChars (s : List Char) : List Char :=
  s.foldr (fun c acc =>
    if c == Char.ofNat 34 || c == Char.ofNat 92 then Char.ofNat 92 :: c :: acc
    else c :: acc) []

/-- Comma-joining for serialized JSON members. -/
def joinComma : List String → String
  | [] => ""
  | [s] => s
  | s :: rest => s ++ "," ++ joinComma rest

/-- `JSON.stringify`, fuel-driven: `none` is undefined (functions), which an
array renders as null and an object omits. -/
def stringifyJsGo : Nat → JsVal → Option String
  | 0, _ => none
  | _ + 1, .vnull => some "null"
  | _ + 1, .vbool b => some (if b then "true" else "false")
  | _ + 1, .vnum n => some ⟨intToChars n⟩
  | _ + 1, .vstr s => some ("\"" ++ (⟨escapeJsonChars s.data⟩ : String) ++ "\"")
  | _ + 1, .vfunc _ => none
  | fuel + 1, .varr items =>
    some ("[" ++
      joinComma (items.map (fun x => (stringifyJsGo fuel x).getD "null")) ++ "]")
  | fuel + 1, .vobj fields =>
    some ("\x7b" ++
      joinComma (fields.filterMap (fun kv =>
        (stringifyJsGo fuel kv.2).map
          (fun s => "\"" ++ (⟨escapeJsonChars kv.1.data⟩ : String) ++ "\":" ++ s))) ++
      "\x7d")

mutual

/-- A computable structural size for JavaScript values, used as serialization
fuel. -/
def jsSize : JsVal → Nat
  | .vnull => 1
  | .vbool _ => 1
  | .vnum _ => 1
  | .vstr _ => 1
  | .vfunc none => 1
  | .vfunc (some v) => jsSize v + 1
  | .varr items => jsSizeList items + 1
  | .vobj fields => jsSizeFields fields + 1

/-- Size of a list of values. -/
def jsSizeList : List JsVal → Nat
  | [] => 0
  | v :: rest => jsSize v + jsSizeList rest

/-- Size of an object's fields. -/
def jsSizeFields : List (String × JsVal) → Nat
  | [] => 0
  | kv :: rest => jsSize kv.2 + jsSizeFields rest

end

/-- `JSON.stringify` at sufficient fuel for its input. -/
def stringifyJs (v : JsVal) : Option String := stringifyJsGo (jsSize v) v

/-- The scanner state: the `functionCallSet` of dedup keys and the collected
`functionCalls` list of (name, args) requests, in discovery order. -/
structure ScanState where
  functionCallSet : List String
  functionCalls : List (String × JsVal)

/-- The dedup key `name::JSON.stringify(args)` of a collected entry. -/
def callKey (c : String × JsVal) : String :=
  c.1 ++ "::" ++ (stringifyJs c.2).getD "undefined"

/-- `addFunctionCall` from `gemini.ts`: only objects are considered; the name
falls back from string to stringified number to "unknown"; the args fall back
from a truthy-object `args` to a truthy-object `arguments` to the empty
object; an entry is appended only when its key is unseen. -/
def addFunctionCall (call : JsVal) (st : ScanState) : ScanState :=
  match call with
  | .vobj fields =>
    let name :=
      match getProp fields "name" with
      | some (.vstr s) => s
      | some (.vnum n) => (⟨intToChars n⟩ : String)
      | _ => "unknown"
    let args :=
      match getProp fields "args" with
      | some a =>
        if jsTruthy a && jsTypeofObject a then a
        else
          match getProp fields "arguments" with
          | some a2 => if jsTruthy a2 && jsTypeofObject a2 then a2 else .vobj []
          | none => .vobj []
      | none =>
        match getProp fields "arguments" with
        | some a2 => if jsTruthy a2 && jsTypeofObject a2 then a2 else .vobj []
        | none => .vobj []
    let key := name ++ "::" ++ (stringifyJs args).getD "undefined"
    if st.functionCallSet.contains key then st
    else ⟨st.functionCallSet ++ [key], st.functionCalls ++ [(name, args)]⟩
  | _ => st

/-- The per-part scanning closure of the candidates loop: a part's truthy
`functionCall` and `function_call` properties are scanned. -/
def scanPart (scanRec : JsVal → ScanState → ScanState) (accp : ScanState)
    (part : JsVal) : ScanState :=
  match part with
  | .vobj pfields =>
    let accp1 :=
      match getProp pfields "functionCall" with
      | some fc => if jsTruthy fc then scanRec fc accp else accp
      | none => accp
    match getProp pfields "function_call" with
    | some fc => if jsTruthy fc then scanRec fc accp1 else accp1
    | none => accp1
  | _ => accp

/-- The per-candidate scanning closure: the candidate itself is scanned, then
each entry of `candidate.content.parts`. -/
def scanCandidate (scanRec : JsVal → ScanState → ScanState) (acc : ScanState)
    (candidate : JsVal) : ScanState :=
  let acc1 := scanRec candidate acc
  match candidate with
  | .vobj cfields =>
    match getProp cfields "content" with
    | some (.vobj contentFields) =>
      match getProp contentFields "parts" with
      | some (.varr parts) => parts.foldl (scanPart scanRec) acc1
      | _ => acc1
    | _ => acc1
  | _ => acc1

/-- The object branch of `scanForFunctionCalls`, over the recursive scanner
for the next depth. -/
def scanObjStep (scanRec : JsVal → ScanState → ScanState)
    (fields : List (String × JsVal)) (st : ScanState) : ScanState :=
    let st1 :=
      match getProp fields "functionCalls" with
      | some (.vfunc (some (.varr calls))) =>
        calls.foldl (fun acc call => scanRec call acc) st
      | _ => st
    let st2 :=
      match getProp fields "functionCall" with
      | some v =>
        if jsTruthy v && !(match v with | .vfunc _ => true | _ => false) then
          scanRec v st1
        else st1
      | none => st1
    let st3 :=
      match getProp fields "function_call" with
      | some v => if jsTruthy v then scanRec v st2 else st2
      | none => st2
    let candidates :=
      match getProp fields "candidates" with
      | some (.vfunc ret) => ret
      | some v => some v
      | none => none
    let st4 :=
      match candidates with
      | some (.varr cands) => cands.foldl (scanCandidate scanRec) st3
      | _ => st3
    let st5 :=
      fields.foldl (fun acc kv =>
        if jsTruthy kv.2 && jsTypeofObject kv.2 &&
            !(["functionCall", "functionCalls", "function_call", "candidates"].contains
              kv.1) then
          scanRec kv.2 acc
        else acc) st4
    if (match getProp fields "name" with | some (.vstr _) => true | _ => false) &&
        ((match getProp fields "args" with | some a => jsTypeofObject a | none => false) ||
         (match getProp fields "arguments" with
          | some a => jsTypeofObject a
          | none => false)) then
      addFunctionCall (.vobj fields) st5
    else st5

/-- `scanForFunctionCalls` from `gemini.ts`, fuel-driven (the source recursion
descends the finite response structure): falsy values, plain callables and
primitives are skipped without invocation; arrays are scanned elementwise; an
object has its `functionCalls()` SDK helper result scanned when it is an
array, its non-function `functionCall` and truthy `function_call` properties
scanned, its `candidates` (called when a function) scanned including each
candidate's `content.parts` function calls, every other object-valued
property scanned, and finally the object itself collected when it carries a
string name and an object-typed `args` or `arguments`. -/
def scanForFunctionCalls : Nat → JsVal → ScanState → ScanState
  | 0, _, st => st
  | _ + 1, .vnull, st => st
  | _ + 1, .vbool _, st => st
  | _ + 1, .vnum _, st => st
  | _ + 1, .vstr _, st => st
  | _ + 1, .vfunc _, st => st
  | fuel + 1, .varr items, st =>
    items.foldl (fun acc item => scanForFunctionCalls fuel item acc) st
  | fuel + 1, .vobj fields, st =>
    scanObjStep (scanForFunctionCalls fuel) fields st

/-- The scanner invariant: the key set mirrors the collected calls, one key per
call, without duplicates. -/
def ScanInv (st : ScanState) : Prop :=
  st.functionCallSet = st.functionCalls.map callKey ∧ st.functionCallSet.Nodup

instance (st : ScanState) : Decidable (ScanInv st) := by
  unfold ScanInv
  infer_instance

/-- `addFunctionCall` keeps the invariant: a seen key changes nothing, an
unseen key appends the one entry and its key. -/
lemma addFunctionCall_inv (call : JsVal) (st : ScanState) (h : ScanInv st) :
    ScanInv (addFunctionCall call st) := by
  cases call with
  | vobj fields =>
    unfold addFunctionCall
    dsimp only
    split
    · exact h
    · rename_i hseen
      constructor
      · rw [List.map_append, ← h.1]
        rfl
      · refine List.Nodup.append h.2 (List.nodup_singleton _) ?_
        intro x hx hx2
        rw [List.mem_singleton] at hx2
        subst hx2
        exact hseen (List.elem_eq_true_of_mem hx)
  | vnull => exact h
  | vbool b => exact h
  | vnum n => exact h
  | vstr s => exact h
  | vfunc r => exact h
  | varr items => exact h

/-- Folding an invariant-preserving step preserves the invariant. -/
lemma foldl_scanInv {α : Type} (f : ScanState → α → ScanState) (l : List α)
    (hf : ∀ st a, ScanInv st → ScanInv (f st a)) :
    ∀ st, ScanInv st → ScanInv (l.foldl f st) := by
  induction l with
  | nil => exact fun st h => h
  | cons a l ih => exact fun st h => ih _ (hf st a h)

/-- `scanPart` keeps the invariant. -/
lemma scanPart_inv (scanRec : JsVal → ScanState → ScanState)
    (hrec : ∀ v st, ScanInv st → ScanInv (scanRec v st))
    (accp : ScanState) (part : JsVal) (h : ScanInv accp) :
    ScanInv (scanPart scanRec accp part) := by
  cases part with
  | vobj pfields =>
    unfold scanPart
    dsimp only
    have h1 : ScanInv (match getProp pfields "functionCall" with
        | some fc => if jsTruthy fc then scanRec fc accp else accp
        | none => accp) := by
      split
      · split
        · exact hrec _ _ h
        · exact h
      · exact h
    split
    · split
      · exact hrec _ _ h1
      · exact h1
    · exact h1
  | vnull => exact h
  | vbool b => exact h
  | vnum n => exact h
  | vstr s => exact h
  | vfunc r => exact h
  | varr items => exact h

/-- `scanCandidate` keeps the invariant. -/
lemma scanCandidate_inv (scanRec : JsVal → ScanState → ScanState)
    (hrec : ∀ v st, ScanInv st → ScanInv (scanRec v st))
    (acc : ScanState) (candidate : JsVal) (h : ScanInv acc) :
    ScanInv (scanCandidate scanRec acc candidate) := by
  unfold scanCandidate
  dsimp only
  have h1 : ScanInv (scanRec candidate acc) := hrec _ _ h
  cases candidate with
  | vobj cfields =>
    dsimp only
    split
    · split
      · exact foldl_scanInv _ _ (fun s part hs => scanPart_inv scanRec hrec s part hs) _ h1
      · exact h1
    · exact h1
  | vnull => exact h1
  | vbool b => exact h1
  | vnum n => exact h1
  | vstr s => exact h1
  | vfunc r => exact h1
  | varr items => exact h1

/-- The object branch keeps the invariant whenever the depth-recursive scanner
does. -/
lemma scanObjStep_inv (scanRec : JsVal → ScanState → ScanState)
    (hrec : ∀ v st, ScanInv st → ScanInv (scanRec v st))
    (fields : List (String × JsVal)) (st : ScanState) (h : ScanInv st) :
    ScanInv (scanObjStep scanRec fields st) := by
  unfold scanObjStep
  dsimp only
  have h1 : ∀ st', ScanInv st' →
      ScanInv (match getProp fields "functionCalls" with
        | some (.vfunc (some (.varr calls))) =>
          calls.foldl (fun acc call => scanRec call acc) st'
        | _ => st') := by
    intro st' h'
    split
    · exact foldl_scanInv _ _ (fun s a hs => hrec a s hs) st' h'
    · exact h'
  have h2 : ∀ st', ScanInv st' →
      ScanInv (match getProp fields "functionCall" with
        | some v =>
          if jsTruthy v && !(match v with | .vfunc _ => true | _ => false) then
            scanRec v st'
          else st'
        | none => st') := by
    intro st' h'
    split
    · split
      · exact hrec _ _ h'
      · exact h'
    · exact h'
  have h3 : ∀ st', ScanInv st' →
      ScanInv (match getProp fields "function_call" with
        | some v => if jsTruthy v then scanRec v st' else st'
        | none => st') := by
    intro st' h'
    split
    · split
      · exact hrec _ _ h'
      · exact h'
    · exact h'
  have h4 : ∀ st', ScanInv st' →
      ScanInv (match (match getProp fields "candidates" with
          | some (.vfunc ret) => ret
          | some v => some v
          | none => none) with
        | some (.varr cands) => cands.foldl (scanCandidate scanRec) st'
        | _ => st') := by
    intro st' h'
    split
    · exact foldl_scanInv _ _ (fun s c hs => scanCandidate_inv scanRec hrec s c hs) st' h'
    · exact h'
  have h5 : ∀ st', ScanInv st' →
      ScanInv (fields.foldl (fun acc kv =>
        if jsTruthy kv.2 && jsTypeofObject kv.2 &&
            !(["functionCall", "functionCalls", "function_call", "candidates"].contains
              kv.1) then
          scanRec kv.2 acc
        else acc) st') := by
    intro st' h'
    refine foldl_scanInv _ _ ?_ st' h'
    intro s kv hs
    dsimp only
    split
    · exact hrec _ _ hs
    · exact hs
  split
  · exact addFunctionCall_inv _ _ (h5 _ (h4 _ (h3 _ (h2 _ (h1 _ h)))))
  · exact h5 _ (h4 _ (h3 _ (h2 _ (h1 _ h))))

/-- The scanner keeps the invariant at every fuel. -/
lemma scanForFunctionCalls_inv (fuel : Nat) :
    ∀ (source : JsVal) (st : ScanState), ScanInv st →
      ScanInv (scanForFunctionCalls fuel source st) := by
  induction fuel with
  | zero => exact fun _ _ h => h
  | succ fuel ih =>
    intro source st h
    cases source with
    | vobj fields => exact scanObjStep_inv _ (fun v s hs => ih v s hs) fields st h
    | varr items =>
      exact foldl_scanInv _ _ (fun s a hs => ih a s hs) st h
    | vnull => exact h
    | vbool b => exact h
    | vnum n => exact h
    | vstr s => exact h
    | vfunc r => exact h

/-- The args object of the sample duplicated call. -/
def sampleArgs : JsVal :=
  .vobj [("command", .vstr "docker"), ("args", .varr [.vstr "ps"])]

/-- The sample tool-call request object. -/
def sampleCall : JsVal :=
  .vobj [("name", .vstr "execute_command"), ("args", sampleArgs)]

/-- A streamed-response value offering the same call through two structural
paths: the `functionCalls()` SDK helper and `candidates[0].content.parts[0]`. -/
def sampleResponse : JsVal :=
  .vobj [("functionCalls", .vfunc (some (.varr [sampleCall]))),
         ("candidates", .varr [.vobj [("content", .vobj [("parts",
           .varr [.vobj [("functionCall", sampleCall)]])])]])]

/-- C6: the scanner deduplicates by (name, serialized arguments) — starting
from a well-formed state the collected list never holds two entries with the
same key, a bare embedded callable is never invoked (scanning it changes
nothing, whatever its body would return), and the sample response carrying the
same request via two structural paths collects exactly one execution entry. -/
theorem scanner_collapses_duplicate_requests (fuel : Nat) (source : JsVal)
    (st : ScanState) (hinv : ScanInv st) :
    ScanInv (scanForFunctionCalls fuel source st) ∧
    ((scanForFunctionCalls fuel source st).functionCalls.map callKey).Nodup ∧
    (∀ ret, scanForFunctionCalls fuel (.vfunc ret) st = st) ∧
    ((scanForFunctionCalls 10 sampleResponse ⟨[], []⟩).functionCalls.map Prod.fst =
      ["execute_command"] ∧
     (scanForFunctionCalls 10 sampleResponse ⟨[], []⟩).functionCalls.map callKey =
      [callKey ("execute_command", sampleArgs)]) := by
  have hres := scanForFunctionCalls_inv fuel source st hinv
  refine ⟨hres, ?_, ?_, by decide⟩
  · rw [← hres.1]
    exact hres.2
  · intro ret
    cases fuel with
    | zero => rfl
    | succ fuel => rfl

/-- Witness for C6: scanning the two-path sample response from the empty state
leaves no duplicate keys. -/
theorem scanner_collapses_duplicate_requests_witness :
    ((scanForFunctionCalls 10 sampleResponse ⟨[], []⟩).functionCalls.map callKey).Nodup :=
  (scanner_collapses_duplicate_requests 10 sampleResponse ⟨[], []⟩ (by decide)).2.1

/-- C2: a (command, args) pair that matches no rule of the ordered table gets
the default decision: level `approval_required`, category `critical`, the
"no explicit policy" reason, and in particular never level `auto`. -/
theorem evaluateCommandPolicy_default_of_no_rule (command : String) (args : List String)
    (h : ∀ rule ∈ allRules,
      matchesRule rule (toLowerCase command) (args.map toLowerCase) = false) :
    evaluateCommandPolicy command args = defaultDecision (toLowerCase command) ∧
    (evaluateCommandPolicy command args).level = .approval_required ∧
    (evaluateCommandPolicy command args).category = .critical ∧
    (evaluateCommandPolicy command args).reason =
      "No explicit policy found for \x27" ++ toLowerCase command ++
        "\x27. Defaulting to user approval." ∧
    (evaluateCommandPolicy command args).level ≠ .auto := by
  have hnone : allRules.find?
      (fun rule => matchesRule rule (toLowerCase command) (args.map toLowerCase)) = none := by
    rw [List.find?_eq_none]
    intro x hx
    simp [h x hx]
  have heq : evaluateCommandPolicy command args = defaultDecision (toLowerCase command) := by
    simp only [evaluateCommandPolicy, hnone]
  rw [heq]
  refine ⟨rfl, rfl, rfl, rfl, ?_⟩
  intro hc
  simp [defaultDecision] at hc

/-- Witness for C2 at the unknown binary "flibbertigibbet". -/
theorem evaluateCommandPolicy_default_of_no_rule_witness :
    (∀ rule ∈ allRules,
      matchesRule rule (toLowerCase "flibbertigibbet")
        (([] : List String).map toLowerCase) = false) ∧
    evaluateCommandPolicy "flibbertigibbet" [] = defaultDecision (toLowerCase "flibbertigibbet") :=
  ⟨by decide, (evaluateCommandPolicy_default_of_no_rule "flibbertigibbet" [] (by decide)).1⟩

/-- C4: the only operation of the approval machine that produces status
`executing` is an explicit Approve: both orchestrator creation sites produce
status `pending` or `blocked`, registering a non-executing request introduces
no executing entry, denying introduces no executing entry, and approving an id
whose request has already executed is a no-op that runs nothing. -/
theorem executing_only_via_approve (st : List PendingCommandRequest) :
    (∀ requestId command args policy now,
      (mkNeedsApprovalRequest requestId command args policy now).status = .pending) ∧
    (∀ requestId command args policy now error,
      (mkBlockedRequest requestId command args policy now error).status = .blocked) ∧
    (∀ request r, request.status ≠ .executing →
      r ∈ handleCommandRequest st request → r.status = .executing → r ∈ st) ∧
    (∀ requestId r, r ∈ (denyCommandRequest st requestId).1 →
      r.status = .executing → r ∈ st) ∧
    (∀ requestId execution request,
      st.find? (fun item => item.id == requestId) = some request →
      request.status = .executed →
      approveCommandRequest st requestId execution = ⟨st, [], st⟩) := by
  refine ⟨fun _ _ _ _ _ => rfl, fun _ _ _ _ _ _ => rfl, ?_, ?_, ?_⟩
  · intro request r hreq hr hstatus
    unfold handleCommandRequest at hr
    by_cases hmem : st.any (fun item => item.id == request.id)
    · rw [if_pos hmem] at hr
      rcases List.mem_map.mp hr with ⟨a, ha, hfa⟩
      by_cases hid : a.id == request.id
      · rw [if_pos hid] at hfa
        exfalso
        apply hreq
        rw [← hstatus, ← hfa]
      · rw [if_neg hid] at hfa
        rwa [← hfa]
    · rw [if_neg hmem] at hr
      rcases List.mem_append.mp hr with h | h
      · exact h
      · exfalso
        apply hreq
        rw [← hstatus, List.mem_singleton.mp h]
  · intro requestId r hr hstatus
    unfold denyCommandRequest at hr
    cases hfind : st.find? (fun item => item.id == requestId) with
    | none => rw [hfind] at hr; exact hr
    | some request =>
      rw [hfind] at hr
      dsimp only at hr
      by_cases hguard : request.status = .executed ∨ request.status = .denied
      · rw [if_pos hguard] at hr; exact hr
      · rw [if_neg hguard] at hr
        simp only at hr
        rcases List.mem_map.mp hr with ⟨a, ha, hfa⟩
        by_cases hid : a.id == requestId
        · rw [if_pos hid] at hfa
          rw [← hfa] at hstatus
          cases hstatus
        · rw [if_neg hid] at hfa
          rwa [← hfa]
  · intro requestId execution request hfind hstatus
    unfold approveCommandRequest
    rw [hfind]
    dsimp only
    rw [if_pos (Or.inl hstatus)]

/-- Concrete inputs for the approval-machine witnesses. -/
def sampleExecutedRequest : PendingCommandRequest :=
  { id := "cmd_1", command := "docker", args := ["stop", "infra"],
    policy := evaluateCommandPolicy "docker" ["stop", "infra"],
    createdAt := 0, status := .executed }

/-- A successful host result used by the concrete scenarios. -/
def sampleOkResult : CommandResult :=
  { success := true, stdout := "", stderr := "", exit_code := some 0, error := none }

/-- Witness for C4: approving the already-executed request `cmd_1` a second
time changes nothing and runs nothing. -/
theorem executing_only_via_approve_witness :
    approveCommandRequest [sampleExecutedRequest] "cmd_1" (.ok sampleOkResult) =
      ⟨[sampleExecutedRequest], [], [sampleExecutedRequest]⟩ :=
  (executing_only_via_approve [sampleExecutedRequest]).2.2.2.2 "cmd_1" (.ok sampleOkResult)
    sampleExecutedRequest (by decide) (by decide)

/-- A decision is both blocked and categorized forbidden. -/
def isBlockedForbidden (d : CommandPolicyDecision) : Prop :=
  d.level = .blocked ∧ d.category = .forbidden

/-- A forbidden request as the orchestrator's blocked creation site builds it
for `rm -rf C:\data`. -/
def blockedRmRequest : PendingCommandRequest :=
  mkBlockedRequest "cmd_rm" "rm" ["-rf", "C:\\data"]
    (evaluateCommandPolicy "rm" ["-rf", "C:\\data"]) 0
    (some "Deleting files is never performed automatically.")

/-- C1: the policy layer and the handler behave as claimed — every forbidden-set
command classifies blocked/forbidden for all argument lists, and the
execute_command handler returns the blocked failure without invoking the host —
but the `useChat` approve operation, whose guard only stops `executed` and
`executing` requests, transitions a blocked forbidden request to `executing`
and runs the forbidden host command. -/
theorem approve_runs_blocked_forbidden_request :
    (∀ args : List String,
      isBlockedForbidden (evaluateCommandPolicy "rm" args) ∧
      isBlockedForbidden (evaluateCommandPolicy "rd" args) ∧
      isBlockedForbidden (evaluateCommandPolicy "del" args) ∧
      isBlockedForbidden (evaluateCommandPolicy "erase" args) ∧
      isBlockedForbidden (evaluateCommandPolicy "format" args) ∧
      isBlockedForbidden (evaluateCommandPolicy "shutdown" args) ∧
      isBlockedForbidden (evaluateCommandPolicy "reboot" args) ∧
      isBlockedForbidden (evaluateCommandPolicy "poweroff" args) ∧
      isBlockedForbidden (evaluateCommandPolicy "mkfs" args) ∧
      isBlockedForbidden (evaluateCommandPolicy "diskpart" args)) ∧
    (∀ rest : List String,
      isBlockedForbidden (evaluateCommandPolicy "docker" ("rm" :: rest)) ∧
      isBlockedForbidden (evaluateCommandPolicy "docker" ("compose" :: "down" :: rest)) ∧
      isBlockedForbidden (evaluateCommandPolicy "docker" ("compose" :: "rm" :: rest))) ∧
    (∀ (command requestId : String) (args : List String)
        (host : String → List String → CommandResult),
      (evaluateCommandPolicy command args).level = .blocked →
      handleExecuteCommand command args requestId host =
        (.blockedResponse command args (evaluateCommandPolicy command args) requestId, [])) ∧
    ((approveCommandRequest [blockedRmRequest] "cmd_rm" (.ok sampleOkResult)).hostCalls =
        [("rm", ["-rf", "C:\\data"])] ∧
      ∃ r ∈ (approveCommandRequest [blockedRmRequest] "cmd_rm"
          (.ok sampleOkResult)).afterGuard,
        r.id = "cmd_rm" ∧ r.status = .executing ∧ r.policy.category = .forbidden) := by
  refine ⟨?_, ?_, ?_, by decide, ?_⟩
  · intro args
    refine ⟨?_, ?_, ?_, ?_, ?_, ?_, ?_, ?_, ?_, ?_⟩ <;>
      constructor <;>
        simp [evaluateCommandPolicy, allRules, forbiddenCommands, criticalRules,
          contextOnlyRules, matchesRule, buildDecision, toLowerCase]
  · intro rest
    refine ⟨?_, ?_, ?_⟩ <;>
      constructor <;>
        simp [evaluateCommandPolicy, allRules, forbiddenCommands, criticalRules,
          contextOnlyRules, matchesRule, buildDecision, toLowerCase]
  · intro command requestId args host hblocked
    unfold handleExecuteCommand
    simp only [hblocked, if_pos]
  · exact ⟨{ blockedRmRequest with status := .executing, error := none }, by decide,
      by decide, by decide, by decide⟩

/-- Witness for C1's universally quantified parts at concrete inputs: `rm -rf`
classifies blocked/forbidden and the handler returns the blocked failure
without a host call. -/
theorem approve_runs_blocked_forbidden_request_witness :
    (evaluateCommandPolicy "rm" ["-rf", "C:\\data"]).level = .blocked ∧
    handleExecuteCommand "rm" ["-rf", "C:\\data"] "cmd_rm" (fun _ _ => sampleOkResult) =
      (.blockedResponse "rm" ["-rf", "C:\\data"]
        (evaluateCommandPolicy "rm" ["-rf", "C:\\data"]) "cmd_rm", []) :=
  ⟨by decide,
    (approve_runs_blocked_forbidden_request).2.2.1 "rm" "cmd_rm" ["-rf", "C:\\data"]
      (fun _ _ => sampleOkResult) (by decide)⟩

/-- C3: the four specification scenarios of the classifier: `docker ps` is
auto/context, `docker rm x` is blocked/forbidden, `git reset --hard` is
approval_required/critical, and the unknown command falls back to the default
approval_required/critical decision. -/
theorem evaluateCommandPolicy_scenarios :
    (evaluateCommandPolicy "docker" ["ps"]).level = .auto ∧
    (evaluateCommandPolicy "docker" ["ps"]).category = .context ∧
    (evaluateCommandPolicy "docker" ["rm", "x"]).level = .blocked ∧
    (evaluateCommandPolicy "docker" ["rm", "x"]).category = .forbidden ∧
    (evaluateCommandPolicy "git" ["reset", "--hard"]).level = .approval_required ∧
    (evaluateCommandPolicy "git" ["reset", "--hard"]).category = .critical ∧
    (evaluateCommandPolicy "flibbertigibbet" []).level = .approval_required ∧
    (evaluateCommandPolicy "flibbertigibbet" []).category = .critical ∧
    evaluateCommandPolicy "flibbertigibbet" [] = defaultDecision "flibbertigibbet" := by
  decide

end AITeacher
